import Mathlib

/-!
Verification development for the inframirror repository: a VM-inventory
synchronisation service between a vCenter-style hypervisor and a Jira-based
asset catalog, with a MongoDB document store as staging area.

The Python sources are shallowly embedded: pure helpers become Lean
functions, MongoDB collections become lists of documents with explicit
update semantics, HTTP calls become function parameters or an explicit
response datum.  Machine floats only occur in fields whose exact rounding
is irrelevant to the claims; they are modelled by `Int`/`Rat`.
-/

/-- Characters stripped by the Python `str.strip()` method (ASCII subset;
the claims never exercise non-ASCII whitespace). -/
def pySpace (c : Char) : Bool :=
  c = ' ' || c = '\t' || c = '\n' || c = '\r' || c = '\x0b' || c = '\x0c'

/-- List-level both-ends strip, the semantics of Python `str.strip()`. -/
def stripChars (l : List Char) : List Char :=
  ((l.dropWhile pySpace).reverse.dropWhile pySpace).reverse

/-- String-level strip, the semantics of Python `str.strip()`. -/
def pyStrip (s : String) : String :=
  String.mk (stripChars s.data)

/-- Python truthiness of an optional string (`None` and the empty string are
falsy). -/
def optTruthy (o : Option String) : Bool :=
  match o with
  | none => false
  | some s => s ≠ ""

/-- Python `a or b` on optional strings: keep `a` when truthy, else `b`. -/
def pyOrO (a b : Option String) : Option String :=
  if optTruthy a then a else b

/-- Python `x or default` collapsing an optional string to a string. -/
def pyOrD (o : Option String) (d : String) : String :=
  match o with
  | none => d
  | some s => if s = "" then d else s

/-- Python `d.get(k, '') or ''` for string-valued fields: an absent value
becomes the empty string. -/
def optStr (o : Option String) : String :=
  o.getD ""

/-- Python `d.get(k, 0) or 0` for numeric fields. -/
def pyOrInt (o : Option Int) : Int :=
  o.getD 0

/-- Boolean string-prefix test on the underlying character lists; the
semantics of Python `str.startswith`. -/
def startsWithStr (s p : String) : Bool :=
  s.data.take p.data.length = p.data

/-- Substring containment, the semantics of the Python `in` operator on
strings. -/
def containsSub (hay needle : String) : Bool :=
  hay.data.tails.any (fun t => needle.data.isPrefixOf t)

/-! ### Shared utility: list chunking (app/utils/utils.py, chunk_list)

`chunk_list` is the literal translation of
`[lst[i:i + chunk_size] for i in range(0, len(lst), chunk_size)]`:
Python `range(0, L, n)` has `(L + n - 1) / n` elements (for `n ≥ 1`) and
`lst[i:i+n]` is `(l.drop i).take n`. -/
/-- Translation of `chunk_list` from app/utils/utils.py. -/
def chunk_list (l : List α) (n : Nat) : List (List α) :=
  (List.range' 0 ((l.length + n - 1) / n) n).map (fun i => (l.drop i).take n)

/-- Recursive reformulation of chunking used for the proofs: chunk size is
`m + 1` so that termination is structural. -/
def chunksAux (m : Nat) : List α → List (List α)
  | [] => []
  | x :: xs => (x :: xs.take m) :: chunksAux m (xs.drop m)
termination_by l => l.length
decreasing_by
  simp only [List.length_cons, List.length_drop]
  omega

/-! ### Character-list splitting (the semantics of Python `str.split(sep)`) -/
/-- Splitting a character list on a separator character; the semantics of
Python `str.split(c)`. -/
def splitOnChar (c : Char) : List Char → List (List Char)
  | [] => [[]]
  | x :: xs =>
    match splitOnChar c xs with
    | [] => [[x]]
    | p :: ps => if x = c then [] :: p :: ps else (x :: p) :: ps

/-- Numeric value of a decimal digit list. -/
def digitsVal (l : List Char) : Nat :=
  l.foldl (fun a c => a * 10 + (c.toNat - 48)) 0

/-! ### Data-model numeric validators (app/models/models.py, JiraVirtualMachine)

The pydantic validators call Python `float(str(v))`; `float` itself is
standard-library behaviour, modelled here by an exact decimal parse into
`Rat` (optional sign, integer digits, optional fractional digits; the
exponent and infinity forms, and IEEE rounding, are not exercised by any
claim).  `int(...)` truncates toward zero. -/
/-- Decimal parse of the forms accepted by Python `float` that the claims
exercise. -/
def parseFloatCore (l : List Char) : Option Rat :=
  match splitOnChar '.' l with
  | [ip] =>
    if ip ≠ [] ∧ ip.all Char.isDigit then some ((digitsVal ip : Rat)) else none
  | [ip, fp] =>
    if (ip ≠ [] ∨ fp ≠ []) ∧ ip.all Char.isDigit ∧ fp.all Char.isDigit then
      some ((digitsVal ip : Rat) + (digitsVal fp : Rat) / ((10 : Rat) ^ fp.length))
    else none
  | _ => none

/-- Python `float(s)`: surrounding whitespace is ignored, an optional sign
precedes the digits. -/
def parseFloatQ (s : String) : Option Rat :=
  match stripChars s.data with
  | '+' :: rest => parseFloatCore rest
  | '-' :: rest => (parseFloatCore rest).map (fun q => -q)
  | t => parseFloatCore t

/-- Python `int(q)` on a float value: truncation toward zero. -/
def qTrunc (q : Rat) : Int :=
  if q < 0 then -((-q).floor) else q.floor

/-- Python `int(float(s))`, raising (modelled by `Except.error`) when the
string does not parse as a float. -/
def pyIntOfFloatOfStr (s : String) : Except String Int :=
  match parseFloatQ s with
  | none => .error "ValueError"
  | some q => .ok (qTrunc q)

/-- Python `float(s)` as raised/ok. -/
def pyFloatOfStr (s : String) : Except String Rat :=
  match parseFloatQ s with
  | none => .error "ValueError"
  | some q => .ok q

/-- Dynamic value arriving from the asset catalog for a numeric-looking
field: absent/null, a string, or a number. -/
inductive Val where
  | vNone : Val
  | vStr : String → Val
  | vInt : Int → Val
deriving DecidableEq, Repr

/-- Translation of the `validate_cpu_count` pydantic validator: `None` and
the empty string give `None`; otherwise `int(float(str(v)))` with any
`ValueError` caught and collapsed to `None`. -/
def validate_cpu_count : Val → Option Int
  | .vNone => none
  | .vStr s =>
    if s = "" then none
    else match pyIntOfFloatOfStr s with
      | .ok n => some n
      | .error _ => none
  | .vInt n =>
    match pyIntOfFloatOfStr (toString n) with
    | .ok k => some k
    | .error _ => none

/-- Translation of the `validate_memory_gb` / `validate_memory_mb` /
`validate_disk_gb` validators: `float(str(v))` with `ValueError` caught. -/
def validate_float_field : Val → Option Rat
  | .vNone => none
  | .vStr s =>
    if s = "" then none
    else match pyFloatOfStr s with
      | .ok q => some q
      | .error _ => none
  | .vInt n =>
    match pyFloatOfStr (toString n) with
    | .ok q => some q
    | .error _ => none

/-- Numeric portion of the `JiraVirtualMachine` record. -/
structure JiraVmNumerics where
  cpu_count : Option Int
  memory_gb : Option Rat
  memory_mb : Option Rat
  disk_gb : Option Rat
deriving DecidableEq, Repr

/-- Building the numeric fields of a `JiraVirtualMachine`: each validator
swallows its parse failure, so construction never rejects the record. -/
def jira_vm_numeric_fields (cpu mem mm dk : Val) : Except String JiraVmNumerics :=
  .ok {
    cpu_count := validate_cpu_count cpu
    memory_gb := validate_float_field mem
    memory_mb := validate_float_field mm
    disk_gb := validate_float_field dk
  }

/-! ### Startup index creation (inframirror-backend/app/core/database.py) -/
/-- One MongoDB index specification as passed to `create_index`. -/
structure IndexSpec where
  key : String
  unique : Bool
  sparse : Bool
deriving DecidableEq, Repr

/-- The four index specifications issued by `init_database`, in source
order. -/
def database_index_specs : List IndexSpec :=
  [⟨"uuid", true, true⟩, ⟨"vmid", true, false⟩,
   ⟨"name", false, false⟩, ⟨"last_updated", false, false⟩]

/-- Translation of `init_database`: ping the server first (a failed ping
raises `ConnectionFailure`, the only fatal startup error), then create the
four indexes on the primary hypervisor-VM collection. -/
def init_database (pingOk : Bool) : Except String (List IndexSpec) :=
  if pingOk then .ok database_index_specs else .error "ConnectionFailure"

/-! ### Document-store model (app/services/database_service.py, bulk_upsert_vms)

A MongoDB document is modelled as an association list of string fields; a
collection is a list of documents.  `UpdateOne(filter, {$set: doc},
upsert=True)` updates the first matching document field-by-field, or
inserts the filter fields overlaid with the update fields when nothing
matches.  `bulk_write(ordered=False)` is modelled by sequential
application in operation order. -/
/-- MongoDB document: association list of string-valued fields. -/
abbrev Doc := List (String × String)

/-- First-binding field lookup (Python dict access; real documents carry
each key once). -/
def docGet (d : Doc) (k : String) : Option String :=
  match d with
  | [] => none
  | (k0, v) :: rest => if k0 = k then some v else docGet rest k

/-- Last-binding field lookup; agrees with `docGet` on documents without
duplicate keys. -/
def docGetLast (d : Doc) (k : String) : Option String :=
  docGet d.reverse k

/-- First-some choice on optional values. -/
def oGet (a b : Option String) : Option String :=
  match a with
  | some x => some x
  | none => b

/-- Dropping every binding of one field name. -/
def removeKey (d : Doc) (k : String) : Doc :=
  match d with
  | [] => []
  | (k0, v) :: rest => if k0 = k then removeKey rest k else (k0, v) :: removeKey rest k

/-- Setting one field of a document (MongoDB `$set` on a single path). -/
def setField (d : Doc) (k : String) (v : String) : Doc :=
  removeKey d k ++ [(k, v)]

/-- MongoDB `$set` with an update document: every update field is written
onto the target document; other fields are retained. -/
def setDoc (d : Doc) (upd : Doc) : Doc :=
  upd.foldl (fun acc kv => setField acc kv.1 kv.2) d

/-- MongoDB equality-filter match. -/
def matchesFilter (flt : Doc) (d : Doc) : Bool :=
  flt.all (fun kv => docGet d kv.1 == some kv.2)

/-- MongoDB `UpdateOne(filter, {$set: upd}, upsert=True)`: update the first
matching document, else insert the filter fields overlaid with the update
fields. -/
def updateOneUpsert : List Doc → Doc → Doc → List Doc
  | [], flt, upd => [setDoc flt upd]
  | d :: ds, flt, upd =>
    if matchesFilter flt d then setDoc d upd :: ds
    else d :: updateOneUpsert ds flt upd

/-- Upsert identity from `bulk_upsert_vms`:
`{'uuid': vm['uuid']} if vm_data.get('uuid') else {'mobid': vm['mobid']}`. -/
def upsert_filter (vm : Doc) : Doc :=
  if optTruthy (docGet vm "uuid") then [("uuid", optStr (docGet vm "uuid"))]
  else [("mobid", optStr (docGet vm "mobid"))]

/-- Translation of `DatabaseService.bulk_upsert_vms`: one
`UpdateOne(..., upsert=True)` per extracted record, keyed by UUID when
present else mobid. -/
def bulk_upsert_vms (coll : List Doc) (vms : List Doc) : List Doc :=
  vms.foldl (fun c vm => updateOneUpsert c (upsert_filter vm) vm) coll

/-- A document carries each field name at most once. -/
def KeysNodup (d : Doc) : Prop :=
  (d.map Prod.fst).Nodup

/-- Number of stored documents carrying a given uuid value. -/
def uuidCount (u : String) (c : List Doc) : Nat :=
  c.countP (fun d => decide (docGet d "uuid" = some u))

def collC6 : List Doc := [[("uuid", "u1"), ("mobid", "m1"), ("extra", "old")]]

def vmC6 : Doc := [("uuid", "u1"), ("mobid", "m1"), ("memory_gb", "2")]

/-! ### Asset-posting pipeline (app/services/jira_poster_service.py)

The staging collection (`missing_vms_for_jira`) and the completed
collection (`completed_jira_assets`) are modelled as lists of typed
records; the HTTP outcome of one post is an explicit response datum; the
payload body is an opaque blob (absent/empty models a falsy payload).
Timestamps (`failure_date`, `last_attempt`, `jira_post_date`) are not
modelled — no claim depends on them. -/
/-- Python string truncation `s[:n]`. -/
def strTake (s : String) (n : Nat) : String :=
  String.mk (s.data.take n)

/-- One staging document of `missing_vms_for_jira`. -/
structure StagingDoc where
  sid : Nat
  vm_name : String
  jira_asset_payload : Option String
  status : String
  retry_count : Option Nat
  failure_status_code : Option Nat
  failure_reason : Option String
  created_date : Nat
deriving DecidableEq, Repr

/-- One document of `completed_jira_assets`: the staging copy plus the
stamps added by `move_to_completed`. -/
structure CompletedDoc where
  vm_name : String
  jira_asset_payload : Option String
  status : String
  retry_count : Option Nat
  failure_status_code : Option Nat
  failure_reason : Option String
  created_date : Nat
  jira_object_key : Option String
  jira_response : Option String
  original_id : Nat
  processing_completed : Bool
deriving DecidableEq, Repr

/-- HTTP outcome of one post to the asset-creation endpoint. -/
inductive JiraResponse where
  | r201 (objectKey : String) (raw : String)
  | r400 (body : String)
  | r401
  | rOther (code : Nat) (body : String)
  | rTimeout
  | rExc (msg : String)
deriving DecidableEq, Repr

/-- Result dictionary returned by `post_vm_to_jira`. -/
structure PostResult where
  success : Bool
  object_key : Option String
  response_data : Option String
  status_code : Option Nat
  error : Option String
deriving DecidableEq, Repr

/-- Translation of `JiraPosterService.post_vm_to_jira`: an absent/empty
payload fails without a network call; 201 succeeds capturing object key
and body; 400/401/other/timeout/exception fail with the source reasons. -/
def post_vm_to_jira (resp : JiraResponse) (doc : StagingDoc) : PostResult :=
  if optTruthy doc.jira_asset_payload = false then
    { success := false, object_key := none, response_data := none,
      status_code := none, error := some "Jira payload is empty" }
  else
    match resp with
    | .r201 k raw =>
      { success := true, object_key := some k, response_data := some raw,
        status_code := none, error := none }
    | .r400 body =>
      { success := false, object_key := none, response_data := none,
        status_code := some 400,
        error := some (String.append "Validation error: " (strTake body 500)) }
    | .r401 =>
      { success := false, object_key := none, response_data := none,
        status_code := some 401,
        error := some "Authorization failed - token invalid" }
    | .rOther code body =>
      { success := false, object_key := none, response_data := none,
        status_code := some code,
        error := some (String.append (String.append "HTTP " (toString code))
          (String.append ": " (strTake body 500))) }
    | .rTimeout =>
      { success := false, object_key := none, response_data := none,
        status_code := none, error := some "Request timeout" }
    | .rExc msg =>
      { success := false, object_key := none, response_data := none,
        status_code := none, error := some (String.append "Exception: " msg) }

/-- Staging and completed collections. -/
structure PosterState where
  missing : List StagingDoc
  completed : List CompletedDoc
deriving DecidableEq, Repr

/-- MongoDB `delete_one({'_id': i})`: remove the first document with the
given identifier. -/
def eraseById (l : List StagingDoc) (i : Nat) : List StagingDoc :=
  match l with
  | [] => []
  | d :: ds => if d.sid = i then ds else d :: eraseById ds i

/-- MongoDB `update_one({'_id': i}, {'$set': ...})`: rewrite the first
document with the given identifier. -/
def updateById (l : List StagingDoc) (i : Nat) (f : StagingDoc → StagingDoc) :
    List StagingDoc :=
  match l with
  | [] => []
  | d :: ds => if d.sid = i then f d :: ds else d :: updateById ds i f

/-- The completed-collection copy built by `move_to_completed`. -/
def mkCompleted (doc : StagingDoc) (pr : PostResult) : CompletedDoc :=
  { vm_name := doc.vm_name
    jira_asset_payload := doc.jira_asset_payload
    status := "completed"
    retry_count := doc.retry_count
    failure_status_code := doc.failure_status_code
    failure_reason := doc.failure_reason
    created_date := doc.created_date
    jira_object_key := pr.object_key
    jira_response := pr.response_data
    original_id := doc.sid
    processing_completed := true }

/-- Translation of `move_to_completed`: insert the stamped copy into the
completed collection, then delete the original staging document. -/
def move_to_completed (st : PosterState) (doc : StagingDoc) (pr : PostResult) :
    PosterState :=
  { missing := eraseById st.missing doc.sid
    completed := st.completed ++ [mkCompleted doc pr] }

/-- The `$set` document written by `mark_as_failed` (computed from the
in-memory `vm_doc`, as in the source). -/
def failedUpdate (doc : StagingDoc) (pr : PostResult) (d : StagingDoc) : StagingDoc :=
  { d with
    status := "failed"
    failure_reason := some (pr.error.getD "Unknown error")
    failure_status_code := pr.status_code
    retry_count := some (doc.retry_count.getD 0 + 1) }

/-- Translation of `mark_as_failed`: update the staging document in place. -/
def mark_as_failed (st : PosterState) (doc : StagingDoc) (pr : PostResult) :
    PosterState :=
  { st with missing := updateById st.missing doc.sid (failedUpdate doc pr) }

/-- One iteration of the `process_vms` loop for one staging document. -/
def process_one_vm (st : PosterState) (doc : StagingDoc) (resp : JiraResponse) :
    PosterState :=
  let pr := post_vm_to_jira resp doc
  if pr.success then move_to_completed st doc pr else mark_as_failed st doc pr

/-! ### Retry pass (app/services/jira_poster_service.py, retry_failed_vms)

`retry_failed_vms` selects staging records with `status = "failed"` and
`retry_count < max_retries` (MongoDB `$lt` does not match documents
missing the field), resets their status, then calls
`process_vms(limit=len(failed_vms))`, whose candidate query
(`get_pending_vms`) re-reads ALL pending records sorted by
`created_date` ascending and truncates at the limit. -/
instance : DecidableRel (fun a b : StagingDoc => a.created_date ≤ b.created_date) :=
  fun a b => Nat.decLe a.created_date b.created_date

/-- Translation of `get_pending_vms`: all staging records with status
`pending_creation`, oldest `created_date` first, truncated at the limit
(a falsy limit of 0 means unlimited, as in the Python `if limit and
count >= limit`). -/
def get_pending_vms (missing : List StagingDoc) (limit : Option Nat) :
    List StagingDoc :=
  match limit with
  | none => (missing.filter (fun d => d.status == "pending_creation")).insertionSort
      (fun a b => a.created_date ≤ b.created_date)
  | some n =>
    if n = 0 then
      (missing.filter (fun d => d.status == "pending_creation")).insertionSort
        (fun a b => a.created_date ≤ b.created_date)
    else
      ((missing.filter (fun d => d.status == "pending_creation")).insertionSort
        (fun a b => a.created_date ≤ b.created_date)).take n

/-- MongoDB `{'retry_count': {'$lt': maxR}}`: matches only documents
carrying the field with a smaller value. -/
def rcLtBool (d : StagingDoc) (maxR : Nat) : Bool :=
  match d.retry_count with
  | none => false
  | some n => n < maxR

/-- The retry selection query `{'status': 'failed', 'retry_count': {'$lt': maxR}}`. -/
def failedSel (maxR : Nat) (d : StagingDoc) : Bool :=
  d.status == "failed" && rcLtBool d maxR

/-- MongoDB `update_many({'_id': {'$in': ids}}, {'$set': {'status':
'pending_creation'}})`. -/
def reset_pending (l : List StagingDoc) (ids : List Nat) : List StagingDoc :=
  l.map (fun d => if d.sid ∈ ids then { d with status := "pending_creation" } else d)

/-- Outcome of one retry pass: the selected failed records, the staging
collection after the status reset, and the records the subsequent posting
pass will process. -/
structure RetryResult where
  selected : List StagingDoc
  stagingAfter : List StagingDoc
  processed : List StagingDoc

/-- Translation of `retry_failed_vms`: select failed records under the
retry threshold, reset them to `pending_creation`, then run the posting
pass candidate query with `limit = len(failed_vms)`. -/
def retry_failed_vms (staging : List StagingDoc) (maxR : Nat) : RetryResult :=
  if (staging.filter (failedSel maxR)).isEmpty then
    { selected := [], stagingAfter := staging, processed := [] }
  else
    { selected := staging.filter (failedSel maxR)
      stagingAfter :=
        reset_pending staging ((staging.filter (failedSel maxR)).map (fun d => d.sid))
      processed := get_pending_vms
        (reset_pending staging ((staging.filter (failedSel maxR)).map (fun d => d.sid)))
        (some (staging.filter (failedSel maxR)).length) }

def stagingC5 : List StagingDoc :=
  [{ sid := 1, vm_name := "other", jira_asset_payload := some "P",
     status := "pending_creation", retry_count := none,
     failure_status_code := none, failure_reason := none, created_date := 0 },
   { sid := 2, vm_name := "failedvm", jira_asset_payload := some "Q",
     status := "failed", retry_count := some 2,
     failure_status_code := some 401, failure_reason := some "auth",
     created_date := 5 }]

/-! ### IP validity filter (app/services/diff_service.py, is_valid_ip)

`is_valid_ip` delegates syntax to the Python standard library
`ipaddress.ip_address`; that parser is modelled faithfully below: IPv4 as
four dotted decimal octets (0–255, no leading zeros), IPv6 as colon
groups of up to four hex digits with at most one `::` compression and an
optional embedded IPv4 tail, following CPython's `_ip_int_from_string`
(zone-id suffixes are not modelled — no claim exercises them). -/
/-- Decimal octet as accepted by CPython `_parse_octet`: non-empty, all
digits, no leading zero (unless the single digit 0), value at most 255. -/
def validOctet (p : List Char) : Bool :=
  !p.isEmpty && p.all (fun c => c.isDigit) &&
  (p.length == 1 || p.head? != some '0') && decide (digitsVal p ≤ 255)

/-- IPv4 dotted-quad syntax. -/
def parseIPv4 (l : List Char) : Bool :=
  match splitOnChar '.' l with
  | [a, b, c, d] => validOctet a && validOctet b && validOctet c && validOctet d
  | _ => false

/-- Hexadecimal digit. -/
def isHexDigitC (c : Char) : Bool :=
  c.isDigit || ('a' ≤ c && c ≤ 'f') || ('A' ≤ c && c ≤ 'F')

/-- IPv6 hextet as accepted by CPython `_parse_hextet`: one to four hex
digits. -/
def validHextet (p : List Char) : Bool :=
  !p.isEmpty && decide (p.length ≤ 4) && p.all isHexDigitC

/-- Hextet count of one side of a `::` compression: a lone empty part is
the half of the compression marker (count 0); otherwise every part must be
a hextet. -/
def sideCnt : List (List Char) → Option Nat
  | [] => none
  | p :: rest =>
    if p.isEmpty then (if rest.isEmpty then some 0 else none)
    else if (p :: rest).all validHextet then some (rest.length + 1) else none

/-- Replacing a trailing embedded IPv4 part by two hextets, as CPython
does before hextet parsing. -/
def expandV4 (parts : List (List Char)) : Option (List (List Char)) :=
  match parts.getLast? with
  | none => none
  | some lp =>
    if lp.contains '.' then
      (if parseIPv4 lp then some (parts.dropLast ++ [['0'], ['0']]) else none)
    else some parts

/-- IPv6 textual syntax, following CPython `_ip_int_from_string`. -/
def parseIPv6 (l : List Char) : Bool :=
  let parts0 := splitOnChar ':' l
  if parts0.length < 3 then false
  else
    match expandV4 parts0 with
    | none => false
    | some ps =>
      if 9 < ps.length then false
      else
        match ((ps.drop 1).dropLast).countP (fun p => p.isEmpty) with
        | 0 => (ps.length == 8) && ps.all validHextet
        | 1 =>
          (match sideCnt (ps.take (1 + ((ps.drop 1).dropLast).findIdx (fun p => p.isEmpty))),
                 sideCnt ((ps.drop ((1 + ((ps.drop 1).dropLast).findIdx (fun p => p.isEmpty)) + 1)).reverse) with
           | some h, some lo => decide (h + lo ≤ 7)
           | _, _ => false)
        | _ => false

/-- Python `ipaddress.ip_address` syntax check. -/
def parseIP (l : List Char) : Bool :=
  parseIPv4 l || parseIPv6 l

/-- Translation of `DiffService.is_valid_ip`: falsy input fails; the
stripped string must parse as an IP address (a `ValueError` is caught as
False) and must not start with any of the four excluded markers. -/
def is_valid_ip (s : String) : Bool :=
  if s = "" then false
  else
    if pyStrip s = "" then false
    else if parseIP (pyStrip s).data = false then false
    else if startsWithStr (pyStrip s) "127." || startsWithStr (pyStrip s) "0.0.0.0" ||
            startsWithStr (pyStrip s) "255.255.255.255" ||
            startsWithStr (pyStrip s) "169.254." then false
    else true

/-! ### Reconciliation engine (app/services/diff_service.py) -/
/-- Network-adapter descriptor (only the field the diff engine reads). -/
structure NetworkEntry where
  ip_address : Option String
deriving DecidableEq, Repr

/-- Disk descriptor (only the field the payload builder reads). -/
structure DiskEntry where
  capacity_gb : Option Int
deriving DecidableEq, Repr

/-- Stored hypervisor-VM document, restricted to the fields the diff
engine projects.  `annot` embeds the VM free-text note field (its source
name ends in a reserved word).  Numeric fields are `Int` (the source
carries a float only for memory, whose rounding no claim touches). -/
structure VcVM where
  name : Option String
  uuid : Option String
  mobid : Option String
  vmid : Option String
  vm_id : Option String
  instance_uuid : Option String
  ip_address : Option String
  guest_ip_addresses : List String
  networks : List NetworkEntry
  cpu_count : Option Int
  memory_gb : Option Int
  disks : List DiskEntry
  annot : Option String
  resource_pool : Option String
  guest_os : Option String
  tags : List (List (String × String))
  tags_jira_asset : List (List (String × String))
deriving DecidableEq, Repr

/-- Display name with the `VM_<vmid>` fallback, as computed by
`get_vcenter_vms_by_ip` and `find_missing_vms_ip_only`. -/
def effName (vm : VcVM) : String :=
  match vm.name with
  | some n =>
    if n ≠ "" then pyStrip n else String.append "VM_" (vm.vmid.getD "Unknown")
  | none => String.append "VM_" (vm.vmid.getD "Unknown")

/-- Primary IP after the safe-handling strip (empty when absent). -/
def primaryIp (vm : VcVM) : String :=
  match vm.ip_address with
  | some ip => if ip ≠ "" then pyStrip ip else ""
  | none => ""

/-- The valid candidates contributed by the primary IP. -/
def validPrimaryIps (vm : VcVM) : List String :=
  if primaryIp vm ≠ "" ∧ is_valid_ip (primaryIp vm) = true then [primaryIp vm] else []

/-- The valid candidates contributed by the guest-reported IPs, in order. -/
def validGuestIps (vm : VcVM) : List String :=
  vm.guest_ip_addresses.filterMap (fun ip =>
    if ip ≠ "" ∧ pyStrip ip ≠ "" ∧ is_valid_ip (pyStrip ip) = true
    then some (pyStrip ip) else none)

/-- The valid candidates contributed by the network descriptors, in order. -/
def validNetIps (vm : VcVM) : List String :=
  vm.networks.filterMap (fun nw =>
    match nw.ip_address with
    | none => none
    | some ip =>
      if ip ≠ "" ∧ pyStrip ip ≠ "" ∧ is_valid_ip (pyStrip ip) = true
      then some (pyStrip ip) else none)

/-- Per-VM outcome of the find-missing pass. -/
inductive VmClass where
  | matched (ip : String)
  | missing
  | skipped
deriving DecidableEq, Repr

/-- Translation of the per-VM body of `find_missing_vms_ip_only`: primary
IP first, then the guest-IP loop, then the network-IP loop, each stopping
at the first catalog hit; with no hit, the VM is missing when the primary
IP or some guest IP is valid (network IPs are NOT consulted here), else
skipped. -/
def classify_vm (jiraIps : List String) (vm : VcVM) : VmClass :=
  if primaryIp vm ≠ "" ∧ is_valid_ip (primaryIp vm) = true ∧ primaryIp vm ∈ jiraIps then
    .matched (primaryIp vm)
  else
    match (validGuestIps vm).find? (fun ip => decide (ip ∈ jiraIps)) with
    | some ip => .matched ip
    | none =>
      match (validNetIps vm).find? (fun ip => decide (ip ∈ jiraIps)) with
      | some ip => .matched ip
      | none =>
        if (primaryIp vm ≠ "" ∧ is_valid_ip (primaryIp vm) = true) ∨
            validGuestIps vm ≠ [] then .missing
        else .skipped

/-- Accumulated result of the find-missing pass. -/
structure DiffResult where
  missing : List (String × VcVM)
  foundByIp : Nat
  noIpCount : Nat
deriving Repr

/-- Python dict assignment `missing_vms[vm_name] = vm_data`. -/
def upsertAssoc (m : List (String × VcVM)) (k : String) (v : VcVM) :
    List (String × VcVM) :=
  if m.any (fun kv => kv.1 == k) then
    m.map (fun kv => if kv.1 == k then (k, v) else kv)
  else m ++ [(k, v)]

/-- One iteration of the `find_missing_vms_ip_only` loop. -/
def diffStep (jiraIps : List String) (acc : DiffResult) (vm : VcVM) : DiffResult :=
  match classify_vm jiraIps vm with
  | .matched _ => { acc with foundByIp := acc.foundByIp + 1 }
  | .missing => { acc with missing := upsertAssoc acc.missing (effName vm) vm }
  | .skipped => { acc with noIpCount := acc.noIpCount + 1 }

/-- Translation of `find_missing_vms_ip_only` over the stored VM list and
the catalog IP set. -/
def find_missing_vms_ip_only (vms : List VcVM) (jiraIps : List String) : DiffResult :=
  vms.foldl (diffStep jiraIps) { missing := [], foundByIp := 0, noIpCount := 0 }

/-- Projection of `save_missing_vms_to_mongodb`: every missing VM becomes
one staging document `(vm_name, status)` with status `pending_creation`. -/
def save_missing_vms (missing : List (String × VcVM)) : List (String × String) :=
  missing.map (fun kv => (kv.1, "pending_creation"))

/-- Catalog candidates in the priority order the source checks them. -/
def orderedValidIps (vm : VcVM) : List String :=
  validPrimaryIps vm ++ validGuestIps vm ++ validNetIps vm

def vmNetOnly : VcVM :=
  { name := some "netvm", uuid := none, mobid := none, vmid := none,
    vm_id := none, instance_uuid := none, ip_address := none,
    guest_ip_addresses := [], networks := [{ ip_address := some "10.1.1.1" }],
    cpu_count := none, memory_gb := none, disks := [], annot := none,
    resource_pool := none, guest_os := none, tags := [], tags_jira_asset := [] }

/-! ### Creation-payload builder (app/services/diff_service.py,
create_jira_asset_payload)

The ITAM lookup (`JiraService.get_itam_number_by_label`) is an HTTP call;
it is a function parameter `lookup : label → objectTypeId → Option key`
(`none` models every not-found / no-token / request-failure outcome, which
the source collapses to `None`). -/
/-- Translation of `DiffService.extract_tag_value`: first dictionary in
the tag array containing the key wins. -/
def extract_tag_value (arrays : List (List (String × String))) (key : String) :
    Option String :=
  arrays.findSome? (fun d => d.lookup key)

/-- Translation of `DiffService.map_vcenter_os_to_jira_os`. -/
def map_vcenter_os_to_jira_os (guest_os : String) : Option String :=
  if guest_os = "" then none
  else
    if containsSub guest_os.toLower "red hat" || containsSub guest_os.toLower "rhel"
    then some "RHEL"
    else if containsSub guest_os.toLower "centos" then some "Centos"
    else if containsSub guest_os.toLower "oracle" then some "OEL"
    else if containsSub guest_os.toLower "windows" then some "Windows"
    else none

/-- The OS classification source: tag keys `OperatingSystem` / `OS` /
`Osname` in truthiness order, else the guest-OS substring mapping. -/
def os_source (vm : VcVM) : Option String :=
  if optTruthy (pyOrO (pyOrO (extract_tag_value vm.tags_jira_asset "OperatingSystem")
      (extract_tag_value vm.tags_jira_asset "OS"))
      (extract_tag_value vm.tags_jira_asset "Osname")) then
    pyOrO (pyOrO (extract_tag_value vm.tags_jira_asset "OperatingSystem")
      (extract_tag_value vm.tags_jira_asset "OS"))
      (extract_tag_value vm.tags_jira_asset "Osname")
  else map_vcenter_os_to_jira_os (optStr vm.guest_os)

/-- The ITAM resolution of one classification value, as written in
`create_jira_asset_payload`: with a truthy source value, the source lookup
else the "Unknown" lookup (which can be absent when both fail); with no
source value, the "Unknown" lookup else the literal string "Unknown". -/
def itam_resolve (lookup : String → String → Option String)
    (src : Option String) (t : String) : Option String :=
  if optTruthy src then
    (if optTruthy (lookup (optStr src) t) then lookup (optStr src) t
     else lookup "Unknown" t)
  else some (pyOrD (lookup "Unknown" t) "Unknown")

/-- First truthy string of a Python `or` chain. -/
def firstTruthyStr : List String → String → String
  | [], d => d
  | x :: rest, d => if x ≠ "" then x else firstTruthyStr rest d

/-- One entry of the creation payload's `attributes` array; `values` holds
the inner `value` fields (a Python `None` value is `none`). -/
structure AttrEntry where
  attrId : Nat
  values : List (Option String)
deriving DecidableEq, Repr

/-- The creation payload. -/
structure Payload where
  objectTypeId : String
  objectSchemaId : String
  attributes : List AttrEntry
deriving DecidableEq, Repr

/-- Translation of `DiffService.create_jira_asset_payload` (the VMID-aware,
dynamic-schema revision). -/
def create_jira_asset_payload (lookup : String → String → Option String)
    (otId osId : String) (vm : VcVM) : Payload :=
  { objectTypeId := otId
    objectSchemaId := osId
    attributes :=
      [⟨14590, [some (pyStrip (optStr vm.name))]⟩,
       ⟨14591, [some (pyStrip (optStr vm.name))]⟩,
       ⟨14594, [some (pyOrD (extract_tag_value vm.tags_jira_asset "Site") "Unknown")]⟩,
       ⟨14595, [some (pyOrD (extract_tag_value vm.tags_jira_asset "Zone") "Unknown")]⟩,
       ⟨14596, [some (pyOrD (extract_tag_value vm.tags_jira_asset "Environment") "Unknown")]⟩,
       ⟨14599, [some (optStr vm.ip_address)]⟩,
       ⟨14611, [some (pyOrD (extract_tag_value vm.tags "CreatedBy") "Unknown")]⟩,
       ⟨14780, [itam_resolve lookup (extract_tag_value vm.tags_jira_asset "Component") "3233"]⟩,
       ⟨14603, [some (toString (pyOrInt vm.cpu_count))]⟩,
       ⟨14604, [some (toString (pyOrInt vm.memory_gb))]⟩,
       ⟨14605, [some (toString (vm.disks.foldl (fun a d => a + pyOrInt d.capacity_gb) 0))]⟩,
       ⟨14606, [some (optStr vm.annot)]⟩,
       ⟨14612, [some (optStr vm.resource_pool)]⟩,
       ⟨14820, [itam_resolve lookup (os_source vm) "3236"]⟩,
       ⟨14817, [itam_resolve lookup (extract_tag_value vm.tags_jira_asset "System") "3006"]⟩,
       ⟨15636, [some (firstTruthyStr
          [optStr vm.vmid, optStr vm.vm_id, optStr vm.mobid,
           strTake (optStr vm.instance_uuid) 8] "Unknown")]⟩] }

def vmC2 : VcVM :=
  { name := some "sysvm", uuid := none, mobid := none, vmid := none,
    vm_id := none, instance_uuid := none, ip_address := none,
    guest_ip_addresses := [], networks := [], cpu_count := none,
    memory_gb := none, disks := [], annot := none, resource_pool := none,
    guest_os := none, tags := [],
    tags_jira_asset := [[("System", "CoreBanking")]] }

def vmC3 : VcVM :=
  { name := some "compvm", uuid := none, mobid := none, vmid := none,
    vm_id := none, instance_uuid := none, ip_address := none,
    guest_ip_addresses := [], networks := [], cpu_count := none,
    memory_gb := none, disks := [], annot := none, resource_pool := none,
    guest_os := none, tags := [],
    tags_jira_asset := [[("Component", "DB")]] }

/-! ### Equivalence of the IP validity filter with its specification

The source excludes `0.0.0.0` and `255.255.255.255` with `startswith`,
the specification states them as exact equality; the two agree on every
string that parses as an IP address, proved below. -/
/-- Joining split parts back with the separator. -/
def interChar (c : Char) : List (List Char) → List Char
  | [] => []
  | [p] => p
  | p :: q :: rest => p ++ c :: interChar c (q :: rest)

/-- The specification's wording of the IP validity filter (stated, unlike the
code, with exact inequality for the two fixed addresses): the stripped string
parses as an IP address, does not start with `127.`, is not exactly `0.0.0.0`
or `255.255.255.255`, and does not start with `169.254.`. -/
def spec_valid_ip (s : String) : Bool :=
  parseIP (pyStrip s).data &&
  !startsWithStr (pyStrip s) "127." &&
  !(pyStrip s == "0.0.0.0") &&
  !(pyStrip s == "255.255.255.255") &&
  !startsWithStr (pyStrip s) "169.254."

theorem chunksAux_nil (m : Nat) : chunksAux m ([] : List α) = [] := by
  simp [chunksAux]

theorem chunksAux_cons (m : Nat) (x : α) (xs : List α) :
    chunksAux m (x :: xs) = (x :: xs.take m) :: chunksAux m (xs.drop m) := by
  simp [chunksAux]

theorem chunksAux_nil_iff (m : Nat) (l : List α) :
    chunksAux m l = [] ↔ l = [] := by
  cases l with
  | nil => simp [chunksAux_nil]
  | cons x xs => simp [chunksAux_cons]

theorem range_chunk_shift (n : Nat) :
    ∀ (k s : Nat) (l : List α),
      (List.range' s k n).map (fun i => (l.drop i).take n) =
      (List.range' 0 k n).map (fun i => ((l.drop s).drop i).take n) := by
  intro k
  induction k with
  | zero => intro s l; rfl
  | succ k ih =>
    intro s l
    rw [List.range'_succ, List.range'_succ, List.map_cons, List.map_cons,
        Nat.zero_add]
    have hhead : (l.drop s).take n = ((l.drop s).drop 0).take n := by simp
    have htail : (List.range' (s + n) k n).map (fun i => (l.drop i).take n) =
        (List.range' n k n).map (fun i => (((l.drop s)).drop i).take n) := by
      rw [ih (s + n) l, ih n (l.drop s)]
      apply List.map_congr_left
      intro i _
      have h1 : ((l.drop s).drop n).drop i = (l.drop (s + n)).drop i := by
        rw [List.drop_drop, List.drop_drop, List.drop_drop]
        congr 1
        omega
      rw [h1]
    rw [htail, hhead]

theorem chunk_list_eq_chunksAux (n : Nat) (hn : 0 < n) :
    ∀ (fuel : Nat) (l : List α), l.length ≤ fuel →
      chunk_list l n = chunksAux (n - 1) l := by
  intro fuel
  induction fuel with
  | zero =>
    intro l hl
    have : l = [] := List.length_eq_zero.mp (Nat.le_zero.mp hl)
    subst this
    simp [chunk_list, chunksAux, Nat.div_eq_of_lt (Nat.sub_lt hn Nat.one_pos)]
  | succ fuel ih =>
    intro l hl
    cases l with
    | nil =>
      simp [chunk_list, chunksAux, Nat.div_eq_of_lt (Nat.sub_lt hn Nat.one_pos)]
    | cons x xs =>
      have hL : (x :: xs).length = xs.length + 1 := by simp
      have hk : ((x :: xs).length + n - 1) / n = (xs.length / n) + 1 := by
        rw [hL]
        have h1 : xs.length + 1 + n - 1 = xs.length + n := by omega
        rw [h1, Nat.add_div_right _ hn]
      unfold chunk_list
      rw [hk, List.range'_succ]
      simp only [List.map_cons, List.drop_zero, Nat.zero_add]
      have hshift := range_chunk_shift n (xs.length / n) n (x :: xs)
      rw [hshift]
      have hdrop : (x :: xs).drop n = xs.drop (n - 1) := by
        cases n with
        | zero => omega
        | succ m => simp
      have htake : (x :: xs).take n = x :: xs.take (n - 1) := by
        cases n with
        | zero => omega
        | succ m => simp
      have hrest : chunk_list ((x :: xs).drop n) n = chunksAux (n - 1) ((x :: xs).drop n) := by
        apply ih
        simp only [List.length_drop]
        omega
      have hcnt : ((((x :: xs).drop n).length + n - 1) / n) = xs.length / n := by
        simp only [List.length_drop, hL]
        rcases Nat.le_total n (xs.length + 1) with h | h
        · have h2 : xs.length + 1 - n + n - 1 = xs.length := by omega
          rw [h2]
        · have h2 : xs.length + 1 - n = 0 := by omega
          rw [h2]
          rw [Nat.div_eq_of_lt (by omega)]
          rw [Nat.div_eq_of_lt (by omega)]
      rw [chunksAux_cons, htake]
      congr 1
      unfold chunk_list at hrest
      rw [hcnt] at hrest
      rw [← hdrop]
      exact hrest

/-- Joining the chunks restores the list. -/
theorem chunksAux_flatten (m : Nat) :
    ∀ l : List α, (chunksAux m l).flatten = l := by
  intro l
  induction l using chunksAux.induct m with
  | case1 => simp [chunksAux_nil]
  | case2 x xs ih =>
    rw [chunksAux_cons]
    simp [ih]

/-- Every chunk except possibly the last has length exactly `m + 1`. -/
theorem chunksAux_dropLast_length (m : Nat) :
    ∀ l : List α, ∀ c ∈ (chunksAux m l).dropLast, c.length = m + 1 := by
  intro l
  induction l using chunksAux.induct m with
  | case1 => simp [chunksAux_nil]
  | case2 x xs ih =>
    intro c hc
    rw [chunksAux_cons] at hc
    cases hrest : chunksAux m (xs.drop m) with
    | nil =>
      rw [hrest] at hc
      simp at hc
    | cons y ys =>
      rw [hrest, List.dropLast_cons₂] at hc
      rcases List.mem_cons.mp hc with h | h
      · subst h
        have hne : xs.drop m ≠ [] := by
          intro h0
          rw [h0, chunksAux_nil] at hrest
          exact List.noConfusion hrest
        have hlen : m < xs.length := by
          by_contra hcon
          push_neg at hcon
          exact hne (List.drop_eq_nil_of_le hcon)
        simp [List.length_take, Nat.min_eq_left (Nat.le_of_lt hlen)]
      · rw [← hrest] at h
        exact ih c h

/-- The last chunk is never empty. -/
theorem chunksAux_getLast_ne_nil (m : Nat) :
    ∀ l : List α, ∀ c ∈ (chunksAux m l).getLast?, c ≠ [] := by
  intro l
  induction l using chunksAux.induct m with
  | case1 => simp [chunksAux_nil]
  | case2 x xs ih =>
    intro c hc
    rw [chunksAux_cons] at hc
    cases hrest : chunksAux m (xs.drop m) with
    | nil =>
      rw [hrest] at hc
      simp only [List.getLast?_singleton, Option.mem_def, Option.some.injEq] at hc
      subst hc
      simp
    | cons y ys =>
      rw [hrest, List.getLast?_cons_cons] at hc
      rw [← hrest] at hc
      exact ih c hc

/-- C10.  Chunking round-trip: for every list and chunk size of at least 1,
the chunks concatenate back to the original list, every chunk except
possibly the last has length exactly the chunk size, the last chunk is
non-empty, and the empty list yields no chunks. -/
theorem chunk_list_round_trip (l : List Nat) (n : Nat) (hn : 1 ≤ n) :
    (chunk_list l n).flatten = l ∧
    (∀ c ∈ (chunk_list l n).dropLast, c.length = n) ∧
    (∀ c ∈ (chunk_list l n).getLast?, c ≠ []) ∧
    (l = [] → chunk_list l n = []) := by
  have he := chunk_list_eq_chunksAux n hn l.length l (Nat.le_refl _)
  rw [he]
  have hm : n - 1 + 1 = n := by omega
  refine ⟨chunksAux_flatten _ l, ?_, chunksAux_getLast_ne_nil _ l, ?_⟩
  · intro c hc
    rw [← hm]
    exact chunksAux_dropLast_length _ l c hc
  · intro hl
    subst hl
    exact chunksAux_nil _

/-- Witness for C10 at a concrete input. -/
theorem chunk_list_round_trip_witness :
    (chunk_list [1, 2, 3, 4, 5] 2).flatten = [1, 2, 3, 4, 5] ∧
    (∀ c ∈ (chunk_list [1, 2, 3, 4, 5] 2).dropLast, c.length = 2) ∧
    (∀ c ∈ (chunk_list [1, 2, 3, 4, 5] 2).getLast?, c ≠ []) ∧
    ([1, 2, 3, 4, 5] = ([] : List Nat) → chunk_list [1, 2, 3, 4, 5] 2 = []) :=
  chunk_list_round_trip [1, 2, 3, 4, 5] 2 (by decide)

/-- C9.  Catalog-record numeric leniency: a `cpu_count` arriving as the
string "4" is stored as the integer 4; the string "four" degrades to
absent; and no numeric field parse failure rejects the whole record. -/
theorem jira_vm_numeric_leniency :
    validate_cpu_count (.vStr "4") = some 4 ∧
    (∀ a b c : Val, ∃ r, jira_vm_numeric_fields (.vStr "four") a b c = .ok r ∧
      r.cpu_count = none) ∧
    (∀ cpu a b c : Val, ∃ r, jira_vm_numeric_fields cpu a b c = .ok r ∧
      r.cpu_count = validate_cpu_count cpu) := by
  refine ⟨by decide, ?_, ?_⟩
  · intro a b c
    refine ⟨_, rfl, ?_⟩
    show validate_cpu_count (.vStr "four") = none
    decide
  · intro cpu a b c
    exact ⟨_, rfl, rfl⟩

/-- C7 counterexample: the claim names `mobid` as the unique index field,
but `init_database` indexes `vmid`; no index at all is created on a field
called `mobid`. -/
theorem init_database_no_mobid_index :
    init_database true = .ok database_index_specs ∧
    database_index_specs.all (fun s => s.key ≠ "mobid") = true ∧
    (database_index_specs.filter (fun s => s.unique)).map (fun s => s.key) =
      ["uuid", "vmid"] := by
  refine ⟨rfl, by decide, by decide⟩

/-- C7 (amended).  Database initialization pings the store and creates
exactly four indexes on the primary hypervisor-VM collection — unique and
sparse on `uuid`, unique on `vmid`, non-unique on `name`, non-unique on
`last_updated` — and a connection failure propagates as the fatal startup
error. -/
theorem init_database_indexes :
    init_database true = .ok database_index_specs ∧
    database_index_specs.map (fun s => (s.key, s.unique, s.sparse)) =
      [("uuid", true, true), ("vmid", true, false),
       ("name", false, false), ("last_updated", false, false)] ∧
    init_database false = .error "ConnectionFailure" := by
  refine ⟨rfl, by decide, rfl⟩

theorem docGet_append (l₁ l₂ : Doc) (k : String) :
    docGet (l₁ ++ l₂) k = oGet (docGet l₁ k) (docGet l₂ k) := by
  induction l₁ with
  | nil => simp [docGet, oGet]
  | cons kv rest ih =>
    obtain ⟨k0, v⟩ := kv
    by_cases h : k0 = k
    · simp [docGet, h, oGet]
    · simp [docGet, h, ih]

theorem docGet_eq_none_of_not_mem (d : Doc) (k : String)
    (h : k ∉ d.map Prod.fst) : docGet d k = none := by
  induction d with
  | nil => rfl
  | cons kv rest ih =>
    obtain ⟨k0, v⟩ := kv
    simp only [List.map_cons, List.mem_cons] at h
    push_neg at h
    have h1 : k0 ≠ k := fun he => h.1 he.symm
    simp [docGet, h1, ih h.2]

theorem docGetLast_eq_of_nodup (d : Doc) (h : KeysNodup d) (k : String) :
    docGetLast d k = docGet d k := by
  induction d with
  | nil => rfl
  | cons kv rest ih =>
    obtain ⟨k0, v⟩ := kv
    unfold KeysNodup at h
    simp only [List.map_cons, List.nodup_cons] at h
    unfold docGetLast
    simp only [List.reverse_cons]
    rw [docGet_append]
    by_cases hk : k0 = k
    · subst hk
      have hnm : k0 ∉ rest.map Prod.fst := h.1
      have h2 : docGet rest.reverse k0 = none := by
        apply docGet_eq_none_of_not_mem
        simp only [List.map_reverse, List.mem_reverse]
        exact hnm
      rw [show docGet rest.reverse k0 = docGetLast rest k0 from rfl] at h2
      unfold docGetLast at h2
      rw [h2]
      simp [docGet, oGet]
    · have := ih h.2
      unfold docGetLast at this
      rw [this]
      simp [docGet, hk, oGet]
      cases docGet rest k <;> simp [oGet]

theorem docGet_removeKey_same (d : Doc) (k : String) :
    docGet (removeKey d k) k = none := by
  induction d with
  | nil => rfl
  | cons kv rest ih =>
    obtain ⟨k0, v⟩ := kv
    by_cases h : k0 = k
    · simp [removeKey, h, ih]
    · simp [removeKey, docGet, h, ih]

theorem docGet_removeKey_other (d : Doc) (k kq : String) (h : kq ≠ k) :
    docGet (removeKey d k) kq = docGet d kq := by
  induction d with
  | nil => rfl
  | cons kv rest ih =>
    obtain ⟨k0, v⟩ := kv
    by_cases h0 : k0 = k
    · subst h0
      have h1 : ¬(k0 = kq) := fun he => h he.symm
      simp [removeKey, docGet, h1, ih]
    · simp [removeKey, docGet, h0, ih]

theorem docGet_setField_same (d : Doc) (k v : String) :
    docGet (setField d k v) k = some v := by
  unfold setField
  rw [docGet_append, docGet_removeKey_same]
  simp [docGet, oGet]

theorem docGet_setField_other (d : Doc) (k v kq : String) (h : kq ≠ k) :
    docGet (setField d k v) kq = docGet d kq := by
  unfold setField
  rw [docGet_append, docGet_removeKey_other d k kq h]
  have h2 : docGet [(k, v)] kq = none := by
    have h1 : ¬(k = kq) := fun he => h he.symm
    simp [docGet, h1]
  rw [h2]
  cases docGet d kq <;> simp [oGet]

theorem docGetLast_cons (k0 v0 : String) (rest : Doc) (k : String) :
    docGetLast ((k0, v0) :: rest) k =
      oGet (docGetLast rest k) (if k0 = k then some v0 else none) := by
  unfold docGetLast
  simp only [List.reverse_cons]
  rw [docGet_append]
  by_cases h : k0 = k <;> simp [docGet, h]

theorem docGet_setDoc (d upd : Doc) (k : String) :
    docGet (setDoc d upd) k = oGet (docGetLast upd k) (docGet d k) := by
  induction upd generalizing d with
  | nil => simp [setDoc, docGetLast, docGet, oGet]
  | cons kv rest ih =>
    obtain ⟨k0, v0⟩ := kv
    have hstep : setDoc d ((k0, v0) :: rest) = setDoc (setField d k0 v0) rest := rfl
    rw [hstep, ih, docGetLast_cons]
    by_cases h : k0 = k
    · subst h
      rw [docGet_setField_same]
      cases docGetLast rest k0 <;> simp [oGet]
    · rw [docGet_setField_other d k0 v0 k (fun he => h he.symm)]
      simp [h]
      cases docGetLast rest k <;> simp [oGet]

theorem docGet_setDoc_of_upd (d upd : Doc) (k v : String)
    (h : docGetLast upd k = some v) : docGet (setDoc d upd) k = some v := by
  rw [docGet_setDoc, h]
  rfl

theorem matchesFilter_single (k u : String) (d : Doc) :
    matchesFilter [(k, u)] d = true ↔ docGet d k = some u := by
  simp [matchesFilter]

theorem upsert_uuid_count_self (vm : Doc) (u0 : String)
    (hlast : docGetLast vm "uuid" = some u0) :
    ∀ c : List Doc,
      uuidCount u0 (updateOneUpsert c [("uuid", u0)] vm) = max (uuidCount u0 c) 1 := by
  intro c
  induction c with
  | nil =>
    have h1 : docGet (setDoc [("uuid", u0)] vm) "uuid" = some u0 :=
      docGet_setDoc_of_upd _ _ _ _ hlast
    simp [updateOneUpsert, uuidCount, List.countP_cons, h1]
  | cons d ds ih =>
    by_cases hm : matchesFilter [("uuid", u0)] d
    · have hd : docGet d "uuid" = some u0 := (matchesFilter_single _ _ _).mp hm
      have h1 : docGet (setDoc d vm) "uuid" = some u0 :=
        docGet_setDoc_of_upd _ _ _ _ hlast
      simp only [updateOneUpsert, if_pos hm]
      simp [uuidCount, List.countP_cons, h1, hd]
    · have hd : ¬(docGet d "uuid" = some u0) := by
        intro h0
        exact hm ((matchesFilter_single _ _ _).mpr h0)
      simp only [updateOneUpsert, if_neg hm]
      simp [uuidCount, List.countP_cons, hd] at ih ⊢
      omega

theorem upsert_uuid_count_other (vm : Doc) (u0 u : String)
    (hlast : docGetLast vm "uuid" = some u0) (hne : u ≠ u0) :
    ∀ c : List Doc,
      uuidCount u (updateOneUpsert c [("uuid", u0)] vm) = uuidCount u c := by
  intro c
  have hne2 : ¬(some u0 = some u) := by
    intro h0
    exact hne (Option.some.inj h0).symm
  induction c with
  | nil =>
    have h1 : docGet (setDoc [("uuid", u0)] vm) "uuid" = some u0 :=
      docGet_setDoc_of_upd _ _ _ _ hlast
    simp [updateOneUpsert, uuidCount, List.countP_cons, h1, hne2]
  | cons d ds ih =>
    by_cases hm : matchesFilter [("uuid", u0)] d
    · have hd : docGet d "uuid" = some u0 := (matchesFilter_single _ _ _).mp hm
      have h1 : docGet (setDoc d vm) "uuid" = some u0 :=
        docGet_setDoc_of_upd _ _ _ _ hlast
      simp only [updateOneUpsert, if_pos hm]
      simp [uuidCount, List.countP_cons, h1, hd, hne2]
    · simp only [updateOneUpsert, if_neg hm]
      simp [uuidCount, List.countP_cons] at ih ⊢
      omega

theorem upsert_uuid_count_mobid (vm : Doc) (m u : String) (hu : u ≠ "")
    (hlast : docGetLast vm "uuid" = none ∨ docGetLast vm "uuid" = some "") :
    ∀ c : List Doc,
      uuidCount u (updateOneUpsert c [("mobid", m)] vm) ≤ uuidCount u c := by
  intro c
  have hmob : docGet [("mobid", m)] "uuid" = none := by simp [docGet]
  have hins : ¬(docGet (setDoc [("mobid", m)] vm) "uuid" = some u) := by
    rw [docGet_setDoc, hmob]
    rcases hlast with h | h <;> rw [h]
    · intro h0
      exact Option.noConfusion h0
    · intro h0
      exact hu (Option.some.inj h0).symm
  induction c with
  | nil =>
    simp [updateOneUpsert, uuidCount, List.countP_cons, hins]
  | cons d ds ih =>
    by_cases hm2 : matchesFilter [("mobid", m)] d
    · simp only [updateOneUpsert, if_pos hm2]
      have hset : docGet (setDoc d vm) "uuid" = some u → docGet d "uuid" = some u := by
        rw [docGet_setDoc]
        rcases hlast with h | h <;> rw [h]
        · intro h0
          exact h0
        · intro h0
          exact absurd (Option.some.inj h0).symm hu
      simp only [uuidCount, List.countP_cons]
      by_cases h1 : docGet (setDoc d vm) "uuid" = some u
      · have h2 := hset h1
        simp [h1, h2]
      · by_cases h2 : docGet d "uuid" = some u <;> simp [h1, h2]
    · simp only [updateOneUpsert, if_neg hm2]
      simp only [uuidCount, List.countP_cons] at ih ⊢
      omega

theorem upsert_writes_fields (flt vm : Doc) :
    ∀ c : List Doc, ∃ d ∈ updateOneUpsert c flt vm,
      ∀ k v, docGetLast vm k = some v → docGet d k = some v := by
  intro c
  induction c with
  | nil =>
    exact ⟨setDoc flt vm, by simp [updateOneUpsert],
      fun k v h => docGet_setDoc_of_upd _ _ _ _ h⟩
  | cons d ds ih =>
    by_cases hm : matchesFilter flt d
    · refine ⟨setDoc d vm, ?_, fun k v h => docGet_setDoc_of_upd _ _ _ _ h⟩
      simp [updateOneUpsert, if_pos hm]
    · obtain ⟨e, he, hprop⟩ := ih
      refine ⟨e, ?_, hprop⟩
      simp only [updateOneUpsert, if_neg hm]
      exact List.mem_cons_of_mem _ he

/-- C6 (amended).  Hypervisor bulk upsert: each record is keyed by its UUID
when present else by its mobid; starting from a store with at most one
document per non-null UUID, the upsert preserves that bound; and the
written document agrees with the newly extracted record on every field the
record carries — but the write is a MongoDB `$set`, so fields absent from
the new record persist from the older stored version (it is not a full
replacement), and a uuid-keyed insert may coexist with an older document
sharing its mobid. -/
theorem bulk_upsert_vms_identity (coll : List Doc) (vms : List Doc)
    (hvm : ∀ vm ∈ vms, KeysNodup vm)
    (huniq : ∀ u : String, u ≠ "" → uuidCount u coll ≤ 1) :
    (∀ u : String, u ≠ "" → uuidCount u (bulk_upsert_vms coll vms) ≤ 1) ∧
    (∀ vm ∈ vms, ∀ c : List Doc,
      ∃ d ∈ updateOneUpsert c (upsert_filter vm) vm,
        ∀ k v, docGetLast vm k = some v → docGet d k = some v) := by
  constructor
  · induction vms generalizing coll with
    | nil => exact fun u hu => huniq u hu
    | cons vm rest ih =>
      intro u hu
      have hstep : bulk_upsert_vms coll (vm :: rest) =
          bulk_upsert_vms (updateOneUpsert coll (upsert_filter vm) vm) rest := rfl
      rw [hstep]
      apply ih (updateOneUpsert coll (upsert_filter vm) vm)
        (fun w hw => hvm w (List.mem_cons_of_mem _ hw)) _ u hu
      intro u2 hu2
      have hnod : KeysNodup vm := hvm vm (List.mem_cons_self _ _)
      have hll := docGetLast_eq_of_nodup vm hnod "uuid"
      by_cases ht : optTruthy (docGet vm "uuid")
      · obtain ⟨u0, hu0⟩ : ∃ u0, docGet vm "uuid" = some u0 := by
          cases hv : docGet vm "uuid" with
          | none => rw [hv] at ht; exact absurd ht (by simp [optTruthy])
          | some s => exact ⟨s, rfl⟩
        have hflt : upsert_filter vm = [("uuid", u0)] := by
          rw [hu0] at ht
          simp [upsert_filter, hu0, ht, optStr]
        have hlast : docGetLast vm "uuid" = some u0 := by rw [hll, hu0]
        rw [hflt]
        by_cases he : u2 = u0
        · subst he
          rw [upsert_uuid_count_self vm u2 hlast coll]
          have := huniq u2 hu2
          omega
        · rw [upsert_uuid_count_other vm u0 u2 hlast he coll]
          exact huniq u2 hu2
      · have hflt : upsert_filter vm = [("mobid", optStr (docGet vm "mobid"))] := by
          simp [upsert_filter, ht]
        have hlast : docGetLast vm "uuid" = none ∨ docGetLast vm "uuid" = some "" := by
          rw [hll]
          cases hv : docGet vm "uuid" with
          | none => exact Or.inl rfl
          | some s =>
            right
            rw [hv] at ht
            simp [optTruthy] at ht
            rw [ht]
        rw [hflt]
        exact Nat.le_trans
          (upsert_uuid_count_mobid vm _ u2 hu2 hlast coll) (huniq u2 hu2)
  · intro vm _ c
    exact upsert_writes_fields (upsert_filter vm) vm c

/-- Witness for C6 at a concrete store and record list. -/
theorem bulk_upsert_vms_identity_witness :
    (∀ vm ∈ [[("uuid", "u1"), ("mobid", "m1")]], KeysNodup vm) ∧
    ((∀ u : String, u ≠ "" →
        uuidCount u (bulk_upsert_vms ([[("uuid", "u2"), ("mobid", "m2")]])
          [[("uuid", "u1"), ("mobid", "m1")]] ) ≤ 1) ∧
      (∀ vm ∈ [[("uuid", "u1"), ("mobid", "m1")]], ∀ c : List Doc,
        ∃ d ∈ updateOneUpsert c (upsert_filter vm) vm,
          ∀ k v, docGetLast vm k = some v → docGet d k = some v)) := by
  have hvm : ∀ vm ∈ [[("uuid", "u1"), ("mobid", "m1")]], KeysNodup vm := by
    intro vm hvm0
    simp only [List.mem_singleton] at hvm0
    subst hvm0
    simp [KeysNodup]
  have huniq : ∀ u : String, u ≠ "" →
      uuidCount u ([[("uuid", "u2"), ("mobid", "m2")]] : List Doc) ≤ 1 := by
    intro u hu
    simp only [uuidCount, List.countP_cons, List.countP_nil]
    split <;> omega
  exact ⟨hvm, bulk_upsert_vms_identity _ _ hvm huniq⟩

/-- C6 counterexample: upserting a re-extracted record for the same UUID
does not store the record wholesale — the stored document retains a field
(`extra`) from the older version that the new record does not carry, so it
is a field-by-field patch, contradicting the claim. -/
theorem bulk_upsert_vms_retains_stale_field :
    bulk_upsert_vms collC6 [vmC6] =
      [[("extra", "old"), ("uuid", "u1"), ("mobid", "m1"), ("memory_gb", "2")]] ∧
    docGet [("extra", "old"), ("uuid", "u1"), ("mobid", "m1"), ("memory_gb", "2")]
      "extra" = some "old" ∧
    docGet vmC6 "extra" = none ∧
    ([("extra", "old"), ("uuid", "u1"), ("mobid", "m1"), ("memory_gb", "2")] : Doc)
      ≠ vmC6 := by
  refine ⟨by decide, by decide, by decide, by decide⟩

theorem updateById_length (l : List StagingDoc) (i : Nat) (f : StagingDoc → StagingDoc) :
    (updateById l i f).length = l.length := by
  induction l with
  | nil => rfl
  | cons d ds ih =>
    by_cases h : d.sid = i <;> simp [updateById, h, ih]

theorem sid_inj (l : List StagingDoc) (hnd : (l.map (fun d => d.sid)).Nodup) :
    ∀ a ∈ l, ∀ b ∈ l, a.sid = b.sid → a = b := by
  induction l with
  | nil => intro a ha; exact absurd ha (List.not_mem_nil a)
  | cons x xs ih =>
    simp only [List.map_cons, List.nodup_cons] at hnd
    intro a ha b hb hab
    rcases List.mem_cons.mp ha with ha1 | ha1 <;>
      rcases List.mem_cons.mp hb with hb1 | hb1
    · rw [ha1, hb1]
    · subst ha1
      exact absurd (hab ▸ List.mem_map_of_mem (fun d => d.sid) hb1) hnd.1
    · subst hb1
      exact absurd (hab ▸ List.mem_map_of_mem (fun d => d.sid) ha1) hnd.1
    · exact ih hnd.2 a ha1 b hb1 hab

theorem updateById_mem_self (l : List StagingDoc) (doc : StagingDoc)
    (f : StagingDoc → StagingDoc) (hmem : doc ∈ l)
    (hnd : (l.map (fun d => d.sid)).Nodup) :
    f doc ∈ updateById l doc.sid f := by
  induction l with
  | nil => exact absurd hmem (List.not_mem_nil doc)
  | cons d ds ih =>
    simp only [List.map_cons, List.nodup_cons] at hnd
    by_cases h : d.sid = doc.sid
    · have hde : d = doc := by
        rcases List.mem_cons.mp hmem with h1 | h1
        · exact h1.symm
        · exact absurd (h ▸ List.mem_map_of_mem (fun x => x.sid) h1) hnd.1
      simp [updateById, h, hde]
    · have hdm : doc ∈ ds := by
        rcases List.mem_cons.mp hmem with h1 | h1
        · exact absurd (congrArg (fun x => x.sid) h1.symm) h
        · exact h1
      simp only [updateById, if_neg h]
      exact List.mem_cons_of_mem _ (ih hdm hnd.2)

theorem updateById_mem_other (l : List StagingDoc) (i : Nat)
    (f : StagingDoc → StagingDoc) (e : StagingDoc) (hmem : e ∈ l)
    (hne : e.sid ≠ i) : e ∈ updateById l i f := by
  induction l with
  | nil => exact absurd hmem (List.not_mem_nil e)
  | cons d ds ih =>
    by_cases h : d.sid = i
    · have hed : e ≠ d := fun he => hne (he ▸ h)
      rcases List.mem_cons.mp hmem with h1 | h1
      · exact absurd h1 hed
      · simp only [updateById, if_pos h]
        exact List.mem_cons_of_mem _ h1
    · rcases List.mem_cons.mp hmem with h1 | h1
      · simp [updateById, h, h1]
      · simp only [updateById, if_neg h]
        exact List.mem_cons_of_mem _ (ih h1)

theorem eraseById_length_of_mem (l : List StagingDoc) (doc : StagingDoc)
    (hmem : doc ∈ l) : (eraseById l doc.sid).length + 1 = l.length := by
  induction l with
  | nil => exact absurd hmem (List.not_mem_nil doc)
  | cons d ds ih =>
    by_cases h : d.sid = doc.sid
    · simp [eraseById, h]
    · have hdm : doc ∈ ds := by
        rcases List.mem_cons.mp hmem with h1 | h1
        · exact absurd (congrArg (fun x => x.sid) h1.symm) h
        · exact h1
      simp only [eraseById, if_neg h, List.length_cons]
      rw [← ih hdm]

theorem eraseById_sid_not_mem (l : List StagingDoc) (i : Nat)
    (hnd : (l.map (fun d => d.sid)).Nodup) :
    i ∉ (eraseById l i).map (fun d => d.sid) := by
  induction l with
  | nil => simp [eraseById]
  | cons d ds ih =>
    simp only [List.map_cons, List.nodup_cons] at hnd
    by_cases h : d.sid = i
    · rw [show eraseById (d :: ds) i = ds from by simp [eraseById, h]]
      exact h ▸ hnd.1
    · simp only [eraseById, if_neg h, List.map_cons, List.mem_cons]
      push_neg
      exact ⟨fun he => h he.symm, ih hnd.2⟩

/-- C4.  Posting disposition: a 201 response appends to the completed
collection a copy of the staging record stamped with the returned object
key and raw response body, and deletes the staging document; a 401
response leaves the staging collection the same size, with the record
updated in place to status "failed", failure_status_code 401 and
retry_count incremented by exactly 1 from its previous value (default 0),
and the completed collection untouched. -/
theorem post_vm_disposition (st : PosterState) (doc : StagingDoc)
    (hmem : doc ∈ st.missing)
    (hnd : (st.missing.map (fun d => d.sid)).Nodup)
    (hp : optTruthy doc.jira_asset_payload = true) :
    (∀ k raw,
      (process_one_vm st doc (.r201 k raw)).completed = st.completed ++
        [{ vm_name := doc.vm_name
           jira_asset_payload := doc.jira_asset_payload
           status := "completed"
           retry_count := doc.retry_count
           failure_status_code := doc.failure_status_code
           failure_reason := doc.failure_reason
           created_date := doc.created_date
           jira_object_key := some k
           jira_response := some raw
           original_id := doc.sid
           processing_completed := true }] ∧
      (process_one_vm st doc (.r201 k raw)).missing = eraseById st.missing doc.sid ∧
      doc.sid ∉ ((process_one_vm st doc (.r201 k raw)).missing.map (fun d => d.sid)) ∧
      (process_one_vm st doc (.r201 k raw)).missing.length + 1 = st.missing.length) ∧
    ((process_one_vm st doc .r401).completed = st.completed ∧
      (process_one_vm st doc .r401).missing.length = st.missing.length ∧
      { doc with
          status := "failed"
          failure_reason := some "Authorization failed - token invalid"
          failure_status_code := some 401
          retry_count := some (doc.retry_count.getD 0 + 1) } ∈
        (process_one_vm st doc .r401).missing ∧
      (∀ e ∈ st.missing, e.sid ≠ doc.sid →
        e ∈ (process_one_vm st doc .r401).missing)) := by
  have hsucc : ∀ k raw, (post_vm_to_jira (.r201 k raw) doc).success = true := by
    intro k raw
    unfold post_vm_to_jira
    rw [hp]
    rfl
  have hfail : (post_vm_to_jira .r401 doc).success = false := by
    unfold post_vm_to_jira
    rw [hp]
    rfl
  constructor
  · intro k raw
    have hstep : process_one_vm st doc (.r201 k raw) =
        move_to_completed st doc (post_vm_to_jira (.r201 k raw) doc) := by
      simp [process_one_vm, hsucc k raw]
    rw [hstep]
    have hpr : post_vm_to_jira (.r201 k raw) doc =
        { success := true, object_key := some k, response_data := some raw,
          status_code := none, error := none } := by
      unfold post_vm_to_jira
      rw [hp]
      rfl
    refine ⟨?_, rfl, ?_, ?_⟩
    · rw [hpr]
      rfl
    · exact eraseById_sid_not_mem st.missing doc.sid hnd
    · exact eraseById_length_of_mem st.missing doc hmem
  · have hstep : process_one_vm st doc .r401 =
        mark_as_failed st doc (post_vm_to_jira .r401 doc) := by
      simp [process_one_vm, hfail]
    rw [hstep]
    refine ⟨rfl, updateById_length _ _ _, ?_, ?_⟩
    · have h1 := updateById_mem_self st.missing doc
        (failedUpdate doc (post_vm_to_jira .r401 doc)) hmem hnd
      have hpr4 : post_vm_to_jira .r401 doc =
          { success := false, object_key := none, response_data := none,
            status_code := some 401,
            error := some "Authorization failed - token invalid" } := by
        unfold post_vm_to_jira
        rw [hp]
        rfl
      have h2 : failedUpdate doc (post_vm_to_jira .r401 doc) doc =
          { doc with
              status := "failed"
              failure_reason := some "Authorization failed - token invalid"
              failure_status_code := some 401
              retry_count := some (doc.retry_count.getD 0 + 1) } := by
        rw [hpr4]
        rfl
      rw [h2] at h1
      exact h1
    · intro e he hne
      exact updateById_mem_other st.missing doc.sid _ e he hne

/-- Witness for C4 at a concrete staging record and state. -/
theorem post_vm_disposition_witness :
    ({ sid := 1, vm_name := "vm1", jira_asset_payload := some "P",
       status := "pending_creation", retry_count := some 1,
       failure_status_code := none, failure_reason := none,
       created_date := 0 } : StagingDoc) ∈
      [({ sid := 1, vm_name := "vm1", jira_asset_payload := some "P",
          status := "pending_creation", retry_count := some 1,
          failure_status_code := none, failure_reason := none,
          created_date := 0 } : StagingDoc)] ∧
    (process_one_vm
        { missing := [{ sid := 1, vm_name := "vm1",
                        jira_asset_payload := some "P",
                        status := "pending_creation", retry_count := some 1,
                        failure_status_code := none, failure_reason := none,
                        created_date := 0 }], completed := [] }
        { sid := 1, vm_name := "vm1", jira_asset_payload := some "P",
          status := "pending_creation", retry_count := some 1,
          failure_status_code := none, failure_reason := none,
          created_date := 0 }
        .r401).missing.length = 1 := by
  constructor
  · exact List.mem_singleton.mpr rfl
  · have h := post_vm_disposition
      { missing := [{ sid := 1, vm_name := "vm1", jira_asset_payload := some "P",
                      status := "pending_creation", retry_count := some 1,
                      failure_status_code := none, failure_reason := none,
                      created_date := 0 }], completed := [] }
      { sid := 1, vm_name := "vm1", jira_asset_payload := some "P",
        status := "pending_creation", retry_count := some 1,
        failure_status_code := none, failure_reason := none, created_date := 0 }
      (by decide) (by decide) (by decide)
    exact h.2.2.1

theorem reset_filter_eq (P : StagingDoc → Bool) (ids : List Nat) :
    ∀ staging : List StagingDoc,
      (∀ d ∈ staging, d.status ≠ "pending_creation") →
      (∀ d ∈ staging, (d.sid ∈ ids ↔ P d = true)) →
      (reset_pending staging ids).filter (fun d => d.status == "pending_creation") =
        (staging.filter P).map (fun d => { d with status := "pending_creation" }) := by
  intro staging
  induction staging with
  | nil => intro _ _; rfl
  | cons d ds ih =>
    intro hnp hiff
    have hd := hiff d (List.mem_cons_self _ _)
    have htail := ih (fun e he => hnp e (List.mem_cons_of_mem _ he))
      (fun e he => hiff e (List.mem_cons_of_mem _ he))
    by_cases hP : P d = true
    · have hin : d.sid ∈ ids := hd.mpr hP
      have h1 : reset_pending (d :: ds) ids =
          ({ d with status := "pending_creation" } :: reset_pending ds ids) := by
        simp [reset_pending, hin]
      have hpend : (({ d with status := "pending_creation" } :
          StagingDoc).status == "pending_creation") = true := by
        simp
      rw [h1, List.filter_cons, List.filter_cons, if_pos hP, if_pos hpend,
          List.map_cons]
      exact congrArg (List.cons _) htail
    · have hout : d.sid ∉ ids := fun hin => hP (hd.mp hin)
      have h1 : reset_pending (d :: ds) ids = d :: reset_pending ds ids := by
        simp [reset_pending, hout]
      have hnpend : ¬((d.status == "pending_creation") = true) := by
        have h2 := hnp d (List.mem_cons_self _ _)
        simp [h2]
      rw [h1, List.filter_cons, List.filter_cons, if_neg hnpend, if_neg hP]
      exact htail

theorem sid_mem_filter_map (staging : List StagingDoc) (P : StagingDoc → Bool)
    (hnd : (staging.map (fun d => d.sid)).Nodup) :
    ∀ d ∈ staging,
      (d.sid ∈ (staging.filter P).map (fun x => x.sid) ↔ P d = true) := by
  intro d hd
  constructor
  · intro hmem
    obtain ⟨e, he, hesid⟩ := List.mem_map.mp hmem
    have he2 := List.mem_filter.mp he
    have heq : e = d := sid_inj staging hnd e he2.1 d hd hesid
    rw [← heq]
    exact he2.2
  · intro hP
    exact List.mem_map_of_mem _ (List.mem_filter.mpr ⟨hd, hP⟩)

/-- C5 (amended).  Retry pass: the selected set is exactly the staging
records with status "failed" and a retry_count strictly below the
threshold; each selected record is reset to "pending_creation"; and the
subsequent posting pass processes the oldest `|selected|` pending records
— which is exactly the selected set whenever no other staging record was
already pending, but can differ otherwise (the pass re-queries all
pending records with only a limit). -/
theorem retry_failed_selection (staging : List StagingDoc) (maxR : Nat)
    (hnd : (staging.map (fun d => d.sid)).Nodup)
    (hnp : ∀ d ∈ staging, d.status ≠ "pending_creation") :
    (∀ d, d ∈ (retry_failed_vms staging maxR).selected ↔
      d ∈ staging ∧ d.status = "failed" ∧
        ∃ n, d.retry_count = some n ∧ n < maxR) ∧
    (∀ d ∈ (retry_failed_vms staging maxR).selected,
      { d with status := "pending_creation" } ∈
        (retry_failed_vms staging maxR).stagingAfter) ∧
    ((retry_failed_vms staging maxR).processed).Perm
      ((retry_failed_vms staging maxR).selected.map
        (fun d => { d with status := "pending_creation" })) := by
  have hmemchar : ∀ d, d ∈ staging.filter (failedSel maxR) ↔
      d ∈ staging ∧ d.status = "failed" ∧
        ∃ n, d.retry_count = some n ∧ n < maxR := by
    intro d
    rw [List.mem_filter]
    unfold failedSel rcLtBool
    constructor
    · rintro ⟨h1, h2⟩
      rw [Bool.and_eq_true] at h2
      refine ⟨h1, beq_iff_eq.mp h2.1, ?_⟩
      cases hrc : d.retry_count with
      | none =>
        rw [hrc] at h2
        exact absurd h2.2 (by simp)
      | some n =>
        rw [hrc] at h2
        exact ⟨n, rfl, by simpa using h2.2⟩
    · rintro ⟨h1, h2, n, h3, h4⟩
      refine ⟨h1, ?_⟩
      rw [Bool.and_eq_true]
      refine ⟨beq_iff_eq.mpr h2, ?_⟩
      rw [h3]
      simpa using h4
  by_cases hemp : (staging.filter (failedSel maxR)).isEmpty
  · have hret : retry_failed_vms staging maxR =
        { selected := [], stagingAfter := staging, processed := [] } := by
      unfold retry_failed_vms
      rw [if_pos hemp]
    rw [hret]
    have hnilf : staging.filter (failedSel maxR) = [] :=
      List.isEmpty_iff.mp hemp
    refine ⟨?_, ?_, List.Perm.refl _⟩
    · intro d
      simp only [List.not_mem_nil, false_iff]
      intro hcontra
      have := (hmemchar d).mpr hcontra
      rw [hnilf] at this
      exact List.not_mem_nil d this
    · intro d hd
      exact absurd hd (List.not_mem_nil d)
  · have hret : retry_failed_vms staging maxR =
        { selected := staging.filter (failedSel maxR)
          stagingAfter := reset_pending staging
            ((staging.filter (failedSel maxR)).map (fun d => d.sid))
          processed := get_pending_vms
            (reset_pending staging
              ((staging.filter (failedSel maxR)).map (fun d => d.sid)))
            (some (staging.filter (failedSel maxR)).length) } := by
      unfold retry_failed_vms
      rw [if_neg hemp]
    rw [hret]
    refine ⟨hmemchar, ?_, ?_⟩
    · intro d hd
      have hd2 : d ∈ staging.filter (failedSel maxR) := hd
      have hds : d ∈ staging := (List.mem_filter.mp hd2).1
      have hin : d.sid ∈ (staging.filter (failedSel maxR)).map (fun x => x.sid) :=
        List.mem_map_of_mem _ hd2
      apply List.mem_map.mpr
      refine ⟨d, hds, ?_⟩
      show (if d.sid ∈ (staging.filter (failedSel maxR)).map (fun x => x.sid)
        then ({ d with status := "pending_creation" } : StagingDoc) else d) =
        { d with status := "pending_creation" }
      exact if_pos hin
    · have hfe := reset_filter_eq (failedSel maxR)
        ((staging.filter (failedSel maxR)).map (fun x => x.sid)) staging hnp
        (sid_mem_filter_map staging (failedSel maxR) hnd)
      have hlen0 : (staging.filter (failedSel maxR)).length ≠ 0 := by
        intro h0
        exact hemp (by
          rw [List.isEmpty_iff]
          exact List.length_eq_zero.mp h0)
      have hgp : get_pending_vms
          (reset_pending staging
            ((staging.filter (failedSel maxR)).map (fun d => d.sid)))
          (some (staging.filter (failedSel maxR)).length) =
          (((staging.filter (failedSel maxR)).map
            (fun d => { d with status := "pending_creation" })).insertionSort
              (fun a b => a.created_date ≤ b.created_date)).take
            (staging.filter (failedSel maxR)).length := by
        simp only [get_pending_vms]
        rw [if_neg hlen0, hfe]
      show (get_pending_vms
          (reset_pending staging
            ((staging.filter (failedSel maxR)).map (fun d => d.sid)))
          (some (staging.filter (failedSel maxR)).length)).Perm
        ((staging.filter (failedSel maxR)).map
          (fun d => { d with status := "pending_creation" }))
      rw [hgp]
      have hslen : (((staging.filter (failedSel maxR)).map
          (fun d => { d with status := "pending_creation" })).insertionSort
            (fun a b => a.created_date ≤ b.created_date)).length =
          (staging.filter (failedSel maxR)).length := by
        rw [List.length_insertionSort, List.length_map]
      rw [List.take_of_length_le (le_of_eq hslen)]
      exact List.perm_insertionSort _ _

/-- Witness for C5 at a concrete staging collection. -/
theorem retry_failed_selection_witness :
    (∀ d, d ∈ (retry_failed_vms
        [{ sid := 7, vm_name := "w1", jira_asset_payload := some "P",
           status := "failed", retry_count := some 2,
           failure_status_code := some 401, failure_reason := some "auth",
           created_date := 3 }] 3).selected ↔
      d ∈ [({ sid := 7, vm_name := "w1", jira_asset_payload := some "P",
              status := "failed", retry_count := some 2,
              failure_status_code := some 401, failure_reason := some "auth",
              created_date := 3 } : StagingDoc)] ∧ d.status = "failed" ∧
        ∃ n, d.retry_count = some n ∧ n < 3) ∧
    (∀ d ∈ (retry_failed_vms
        [{ sid := 7, vm_name := "w1", jira_asset_payload := some "P",
           status := "failed", retry_count := some 2,
           failure_status_code := some 401, failure_reason := some "auth",
           created_date := 3 }] 3).selected,
      { d with status := "pending_creation" } ∈
        (retry_failed_vms
          [{ sid := 7, vm_name := "w1", jira_asset_payload := some "P",
             status := "failed", retry_count := some 2,
             failure_status_code := some 401, failure_reason := some "auth",
             created_date := 3 }] 3).stagingAfter) ∧
    ((retry_failed_vms
        [{ sid := 7, vm_name := "w1", jira_asset_payload := some "P",
           status := "failed", retry_count := some 2,
           failure_status_code := some 401, failure_reason := some "auth",
           created_date := 3 }] 3).processed).Perm
      ((retry_failed_vms
          [{ sid := 7, vm_name := "w1", jira_asset_payload := some "P",
             status := "failed", retry_count := some 2,
             failure_status_code := some 401, failure_reason := some "auth",
             created_date := 3 }] 3).selected.map
        (fun d => { d with status := "pending_creation" })) :=
  retry_failed_selection
    [{ sid := 7, vm_name := "w1", jira_asset_payload := some "P",
       status := "failed", retry_count := some 2,
       failure_status_code := some 401, failure_reason := some "auth",
       created_date := 3 }] 3 (by decide)
    (by
      intro d hd
      rw [List.mem_singleton] at hd
      subst hd
      decide)

/-- C5 counterexample: with one pre-existing pending record older than the
reset one, the retry pass selects exactly the failed record but the
posting pass (which re-queries all pending records, oldest first, limited
to the selected count) processes the other record instead — the selected
record is omitted, so the posting pass does not process exactly the
selected set. -/
theorem retry_failed_vms_processes_other_record :
    ((retry_failed_vms stagingC5 3).selected.map (fun d => d.vm_name) =
      ["failedvm"]) ∧
    ((retry_failed_vms stagingC5 3).processed.map (fun d => d.vm_name) =
      ["other"]) := by
  constructor
  · decide
  · decide

theorem validPrimaryIps_pos (vm : VcVM)
    (hp : primaryIp vm ≠ "" ∧ is_valid_ip (primaryIp vm) = true) :
    validPrimaryIps vm = [primaryIp vm] := by
  unfold validPrimaryIps
  rw [if_pos hp]

theorem validPrimaryIps_neg (vm : VcVM)
    (hp : ¬(primaryIp vm ≠ "" ∧ is_valid_ip (primaryIp vm) = true)) :
    validPrimaryIps vm = [] := by
  unfold validPrimaryIps
  rw [if_neg hp]

theorem classify_vm_spec (jiraIps : List String) (vm : VcVM) :
    classify_vm jiraIps vm =
      match (orderedValidIps vm).find? (fun ip => decide (ip ∈ jiraIps)) with
      | some ip => .matched ip
      | none =>
        if validPrimaryIps vm ≠ [] ∨ validGuestIps vm ≠ [] then .missing
        else .skipped := by
  unfold classify_vm orderedValidIps
  by_cases hp : primaryIp vm ≠ "" ∧ is_valid_ip (primaryIp vm) = true
  · rw [validPrimaryIps_pos vm hp]
    by_cases hm : primaryIp vm ∈ jiraIps
    · rw [if_pos ⟨hp.1, hp.2, hm⟩]
      have hfind : (([primaryIp vm] ++ validGuestIps vm ++ validNetIps vm).find?
          (fun ip => decide (ip ∈ jiraIps))) = some (primaryIp vm) := by
        apply List.find?_cons_of_pos
        exact decide_eq_true hm
      rw [hfind]
    · rw [if_neg (fun hA => hm hA.2.2)]
      have hfind : (([primaryIp vm] ++ validGuestIps vm ++ validNetIps vm).find?
          (fun ip => decide (ip ∈ jiraIps))) =
          ((validGuestIps vm ++ validNetIps vm).find? (fun ip => decide (ip ∈ jiraIps))) := by
        apply List.find?_cons_of_neg
        simpa using hm
      rw [hfind, List.find?_append]
      cases hg : (validGuestIps vm).find? (fun ip => decide (ip ∈ jiraIps)) with
      | some ip => rfl
      | none =>
        cases hn : (validNetIps vm).find? (fun ip => decide (ip ∈ jiraIps)) with
        | some ip => rfl
        | none =>
          show (if (primaryIp vm ≠ "" ∧ is_valid_ip (primaryIp vm) = true) ∨
              validGuestIps vm ≠ [] then VmClass.missing else VmClass.skipped) =
            (if [primaryIp vm] ≠ [] ∨ validGuestIps vm ≠ [] then VmClass.missing
             else VmClass.skipped)
          rw [if_pos (Or.inl hp), if_pos (Or.inl (by simp))]
  · rw [validPrimaryIps_neg vm hp]
    rw [if_neg (fun hA => hp ⟨hA.1, hA.2.1⟩)]
    have hnil : (([] : List String) ++ validGuestIps vm ++ validNetIps vm) =
        validGuestIps vm ++ validNetIps vm := rfl
    rw [hnil, List.find?_append]
    cases hg : (validGuestIps vm).find? (fun ip => decide (ip ∈ jiraIps)) with
    | some ip => rfl
    | none =>
      cases hn : (validNetIps vm).find? (fun ip => decide (ip ∈ jiraIps)) with
      | some ip => rfl
      | none =>
        show (if (primaryIp vm ≠ "" ∧ is_valid_ip (primaryIp vm) = true) ∨
            validGuestIps vm ≠ [] then VmClass.missing else VmClass.skipped) =
          (if ([] : List String) ≠ [] ∨ validGuestIps vm ≠ [] then VmClass.missing
           else VmClass.skipped)
        by_cases hguest : validGuestIps vm ≠ []
        · rw [if_pos (Or.inr hguest), if_pos (Or.inr hguest)]
        · rw [if_neg (by
            rintro (h1 | h2)
            · exact hp h1
            · exact hguest h2),
            if_neg (by
              rintro (h1 | h2)
              · exact h1 rfl
              · exact hguest h2)]

theorem upsertAssoc_map_keys (k : String) (v : VcVM) (n : String) :
    ∀ m : List (String × VcVM),
      ((m.map (fun kv => if kv.1 == k then (k, v) else kv)).any
        (fun kv => kv.1 == n)) = m.any (fun kv => kv.1 == n) := by
  intro m
  induction m with
  | nil => rfl
  | cons kv rest ih =>
    simp only [List.map_cons, List.any_cons]
    rw [ih]
    by_cases h : (kv.1 == k) = true
    · have hk : kv.1 = k := beq_iff_eq.mp h
      rw [if_pos h, hk]
    · rw [if_neg h]

theorem upsertAssoc_any (m : List (String × VcVM)) (k : String) (v : VcVM)
    (n : String) :
    ((upsertAssoc m k v).any (fun kv => kv.1 == n) = true) ↔
      (m.any (fun kv => kv.1 == n) = true ∨ k = n) := by
  unfold upsertAssoc
  by_cases hex : m.any (fun kv => kv.1 == k) = true
  · rw [if_pos hex]
    rw [upsertAssoc_map_keys k v n m]
    constructor
    · exact Or.inl
    · rintro (h | h)
      · exact h
      · subst h
        obtain ⟨kv, hkv, hbeq⟩ := List.any_eq_true.mp hex
        exact List.any_eq_true.mpr ⟨kv, hkv, hbeq⟩
  · rw [if_neg hex]
    rw [List.any_append]
    simp only [List.any_cons, List.any_nil, Bool.or_false, Bool.or_eq_true]
    constructor
    · rintro (h | h)
      · exact Or.inl h
      · exact Or.inr (beq_iff_eq.mp h)
    · rintro (h | h)
      · exact Or.inl h
      · exact Or.inr (beq_iff_eq.mpr h)

theorem find_missing_any_key (jiraIps : List String) (vms : List VcVM) :
    ∀ acc : DiffResult, ∀ n : String,
      (((vms.foldl (diffStep jiraIps) acc).missing.any (fun kv => kv.1 == n)) = true ↔
        (acc.missing.any (fun kv => kv.1 == n) = true ∨
          ∃ vm ∈ vms, effName vm = n ∧ classify_vm jiraIps vm = .missing)) := by
  induction vms with
  | nil =>
    intro acc n
    simp
  | cons vm rest ih =>
    intro acc n
    rw [List.foldl_cons, ih (diffStep jiraIps acc vm) n]
    unfold diffStep
    cases hc : classify_vm jiraIps vm with
    | matched ip =>
      simp only [List.mem_cons]
      constructor
      · rintro (h | ⟨w, hw, he, hcl⟩)
        · exact Or.inl h
        · exact Or.inr ⟨w, Or.inr hw, he, hcl⟩
      · rintro (h | ⟨w, hw | hw, he, hcl⟩)
        · exact Or.inl h
        · subst hw
          rw [hc] at hcl
          exact absurd hcl (by intro h0; exact VmClass.noConfusion h0)
        · exact Or.inr ⟨w, hw, he, hcl⟩
    | skipped =>
      simp only [List.mem_cons]
      constructor
      · rintro (h | ⟨w, hw, he, hcl⟩)
        · exact Or.inl h
        · exact Or.inr ⟨w, Or.inr hw, he, hcl⟩
      · rintro (h | ⟨w, hw | hw, he, hcl⟩)
        · exact Or.inl h
        · subst hw
          rw [hc] at hcl
          exact absurd hcl (by intro h0; exact VmClass.noConfusion h0)
        · exact Or.inr ⟨w, hw, he, hcl⟩
    | missing =>
      show (upsertAssoc acc.missing (effName vm) vm).any (fun kv => kv.1 == n) = true ∨ _ ↔ _
      rw [upsertAssoc_any]
      simp only [List.mem_cons]
      constructor
      · rintro ((h | h) | ⟨w, hw, he, hcl⟩)
        · exact Or.inl h
        · exact Or.inr ⟨vm, Or.inl rfl, h, hc⟩
        · exact Or.inr ⟨w, Or.inr hw, he, hcl⟩
      · rintro (h | ⟨w, hw | hw, he, hcl⟩)
        · exact Or.inl (Or.inl h)
        · subst hw
          exact Or.inl (Or.inr he)
        · exact Or.inr ⟨w, hw, he, hcl⟩

theorem find_missing_counts (jiraIps : List String) (vms : List VcVM) :
    ∀ acc : DiffResult,
      ((vms.foldl (diffStep jiraIps) acc).noIpCount =
        acc.noIpCount + vms.countP (fun vm =>
          decide (classify_vm jiraIps vm = VmClass.skipped))) ∧
      ((vms.foldl (diffStep jiraIps) acc).foundByIp =
        acc.foundByIp + vms.countP (fun vm =>
          match classify_vm jiraIps vm with
          | .matched _ => true
          | _ => false)) := by
  induction vms with
  | nil =>
    intro acc
    simp
  | cons vm rest ih =>
    intro acc
    rw [List.foldl_cons, List.countP_cons, List.countP_cons]
    have h := ih (diffStep jiraIps acc vm)
    clear h
    cases hc : classify_vm jiraIps vm with
    | matched ip =>
      have hstep : diffStep jiraIps acc vm = { acc with foundByIp := acc.foundByIp + 1 } := by
        unfold diffStep
        rw [hc]
      rw [hstep]
      have h := ih { acc with foundByIp := acc.foundByIp + 1 }
      simp only [hc]
      refine ⟨?_, ?_⟩
      · rw [h.1]
        simp
      · rw [h.2]
        simp
        omega
    | missing =>
      have hstep : diffStep jiraIps acc vm =
          { acc with missing := upsertAssoc acc.missing (effName vm) vm } := by
        unfold diffStep
        rw [hc]
      rw [hstep]
      have h := ih { acc with missing := upsertAssoc acc.missing (effName vm) vm }
      simp only [hc]
      refine ⟨?_, ?_⟩
      · rw [h.1]
        simp
      · rw [h.2]
        simp
    | skipped =>
      have hstep : diffStep jiraIps acc vm = { acc with noIpCount := acc.noIpCount + 1 } := by
        unfold diffStep
        rw [hc]
      rw [hstep]
      have h := ih { acc with noIpCount := acc.noIpCount + 1 }
      simp only [hc]
      refine ⟨?_, ?_⟩
      · rw [h.1]
        simp
        omega
      · rw [h.2]
        simp

/-- C1 (amended).  Missing-VM determination: each stored hypervisor VM is
matched against the catalog IP set in priority order (valid primary IP,
then valid guest IPs, then valid network-descriptor IPs, stopping at the
first hit); with no hit, the VM is missing exactly when its primary IP or
some guest IP is syntactically valid — a VM whose only valid IPs sit in
its network descriptors is counted as skipped, not missing; the missing
dictionary holds exactly the effective names of missing-classified VMs,
the skip counter counts exactly the skipped VMs, and every staged record
carries status `pending_creation`. -/
theorem find_missing_vms_characterization (jiraIps : List String) :
    (∀ vm : VcVM,
      classify_vm jiraIps vm =
        match (orderedValidIps vm).find? (fun ip => decide (ip ∈ jiraIps)) with
        | some ip => .matched ip
        | none =>
          if validPrimaryIps vm ≠ [] ∨ validGuestIps vm ≠ [] then .missing
          else .skipped) ∧
    (∀ vms : List VcVM, ∀ n : String,
      ((find_missing_vms_ip_only vms jiraIps).missing.any (fun kv => kv.1 == n)) = true ↔
        ∃ vm ∈ vms, effName vm = n ∧ classify_vm jiraIps vm = .missing) ∧
    (∀ vms : List VcVM,
      (find_missing_vms_ip_only vms jiraIps).noIpCount =
        vms.countP (fun vm => decide (classify_vm jiraIps vm = VmClass.skipped)) ∧
      (find_missing_vms_ip_only vms jiraIps).foundByIp =
        vms.countP (fun vm =>
          match classify_vm jiraIps vm with
          | .matched _ => true
          | _ => false)) ∧
    (∀ vms : List VcVM,
      ((save_missing_vms (find_missing_vms_ip_only vms jiraIps).missing).all
        (fun kv => kv.2 == "pending_creation")) = true ∧
      (save_missing_vms (find_missing_vms_ip_only vms jiraIps).missing).map
        Prod.fst = (find_missing_vms_ip_only vms jiraIps).missing.map Prod.fst) := by
  refine ⟨classify_vm_spec jiraIps, ?_, ?_, ?_⟩
  · intro vms n
    unfold find_missing_vms_ip_only
    rw [find_missing_any_key jiraIps vms _ n]
    simp
  · intro vms
    unfold find_missing_vms_ip_only
    have h := find_missing_counts jiraIps vms { missing := [], foundByIp := 0, noIpCount := 0 }
    constructor
    · rw [h.1]
      simp
    · rw [h.2]
      simp
  · intro vms
    constructor
    · unfold save_missing_vms
      rw [List.all_eq_true]
      intro kv hkv
      obtain ⟨w, _, hw⟩ := List.mem_map.mp hkv
      rw [← hw]
      rfl
    · unfold save_missing_vms
      rw [List.map_map]
      rfl

/-- Witness for C1 at a concrete VM and catalog set. -/
theorem find_missing_vms_characterization_witness :
    classify_vm ["10.9.9.9"]
      { name := some "wvm", uuid := none, mobid := none, vmid := none,
        vm_id := none, instance_uuid := none, ip_address := some "10.9.9.9",
        guest_ip_addresses := [], networks := [], cpu_count := none,
        memory_gb := none, disks := [], annot := none, resource_pool := none,
        guest_os := none, tags := [], tags_jira_asset := [] } =
      (match (orderedValidIps
          { name := some "wvm", uuid := none, mobid := none, vmid := none,
            vm_id := none, instance_uuid := none, ip_address := some "10.9.9.9",
            guest_ip_addresses := [], networks := [], cpu_count := none,
            memory_gb := none, disks := [], annot := none, resource_pool := none,
            guest_os := none, tags := [], tags_jira_asset := [] }).find?
          (fun ip => decide (ip ∈ ["10.9.9.9"])) with
        | some ip => VmClass.matched ip
        | none =>
          if validPrimaryIps
              { name := some "wvm", uuid := none, mobid := none, vmid := none,
                vm_id := none, instance_uuid := none, ip_address := some "10.9.9.9",
                guest_ip_addresses := [], networks := [], cpu_count := none,
                memory_gb := none, disks := [], annot := none, resource_pool := none,
                guest_os := none, tags := [], tags_jira_asset := [] } ≠ [] ∨
              validGuestIps
                { name := some "wvm", uuid := none, mobid := none, vmid := none,
                  vm_id := none, instance_uuid := none, ip_address := some "10.9.9.9",
                  guest_ip_addresses := [], networks := [], cpu_count := none,
                  memory_gb := none, disks := [], annot := none, resource_pool := none,
                  guest_os := none, tags := [], tags_jira_asset := [] } ≠ []
          then VmClass.missing else VmClass.skipped) :=
  (find_missing_vms_characterization ["10.9.9.9"]).1
    { name := some "wvm", uuid := none, mobid := none, vmid := none,
      vm_id := none, instance_uuid := none, ip_address := some "10.9.9.9",
      guest_ip_addresses := [], networks := [], cpu_count := none,
      memory_gb := none, disks := [], annot := none, resource_pool := none,
      guest_os := none, tags := [], tags_jira_asset := [] }

/-- C1 counterexample: a VM whose only syntactically valid IP is a
network-descriptor IP, with an empty catalog set, is counted as skipped
(no valid IP) and never staged — the `has_valid_ip` check of
`find_missing_vms_ip_only` consults only the primary and guest IPs,
contradicting the claim that such a VM is classified missing. -/
theorem network_only_vm_skipped :
    is_valid_ip "10.1.1.1" = true ∧
    validNetIps vmNetOnly = ["10.1.1.1"] ∧
    classify_vm [] vmNetOnly = .skipped ∧
    (find_missing_vms_ip_only [vmNetOnly] []).missing = [] ∧
    (find_missing_vms_ip_only [vmNetOnly] []).noIpCount = 1 := by
  refine ⟨by decide, by decide, by decide, by decide, by decide⟩

theorem optTruthy_isSome (o : Option String) (h : optTruthy o = true) :
    o.isSome = true := by
  cases o with
  | none => exact absurd h (by simp [optTruthy])
  | some s => rfl

theorem itam_resolve_isSome_of_unknown (lookup : String → String → Option String)
    (src : Option String) (t : String)
    (h : optTruthy (lookup "Unknown" t) = true) :
    (itam_resolve lookup src t).isSome = true := by
  unfold itam_resolve
  by_cases hs : optTruthy src = true
  · rw [if_pos hs]
    by_cases hl : optTruthy (lookup (optStr src) t) = true
    · rw [if_pos hl]
      exact optTruthy_isSome _ hl
    · rw [if_neg hl]
      exact optTruthy_isSome _ h
  · rw [if_neg hs]
    rfl

/-- C2 (amended).  Creation-payload wire shape: the payload's attributes
array carries exactly the claimed objectTypeAttributeId list (in order),
each attribute exactly one value, and the top-level objectTypeId equals
the run's configured object-type id; every value is a string except that
the three ITAM reference attributes (14780 Component at position 7,
14820 OperatingSystem at position 13, 14817 System at position 14) carry
a string exactly when their itam_resolve chain resolves — in particular,
when the "Unknown" lookups succeed, every value is a string. -/
theorem payload_wire_shape (lookup : String → String → Option String)
    (otId osId : String) (vm : VcVM) :
    (create_jira_asset_payload lookup otId osId vm).objectTypeId = otId ∧
    (create_jira_asset_payload lookup otId osId vm).attributes.map
      (fun a => a.attrId) =
      [14590, 14591, 14594, 14595, 14596, 14599, 14611, 14780, 14603,
       14604, 14605, 14606, 14612, 14820, 14817, 15636] ∧
    ((create_jira_asset_payload lookup otId osId vm).attributes.all
      (fun a => a.values.length == 1)) = true ∧
    (create_jira_asset_payload lookup otId osId vm).attributes.map
      (fun a => a.values.all (fun v => v.isSome)) =
      [true, true, true, true, true, true, true,
       (itam_resolve lookup
         (extract_tag_value vm.tags_jira_asset "Component") "3233").isSome,
       true, true, true, true, true,
       (itam_resolve lookup (os_source vm) "3236").isSome,
       (itam_resolve lookup
         (extract_tag_value vm.tags_jira_asset "System") "3006").isSome,
       true] ∧
    ((optTruthy (lookup "Unknown" "3006") = true ∧
      optTruthy (lookup "Unknown" "3233") = true ∧
      optTruthy (lookup "Unknown" "3236") = true) →
      (create_jira_asset_payload lookup otId osId vm).attributes.map
        (fun a => a.values.all (fun v => v.isSome)) =
        [true, true, true, true, true, true, true, true, true, true, true,
         true, true, true, true, true]) := by
  have hmap : (create_jira_asset_payload lookup otId osId vm).attributes.map
      (fun a => a.values.all (fun v => v.isSome)) =
      [true, true, true, true, true, true, true,
       (itam_resolve lookup
         (extract_tag_value vm.tags_jira_asset "Component") "3233").isSome,
       true, true, true, true, true,
       (itam_resolve lookup (os_source vm) "3236").isSome,
       (itam_resolve lookup
         (extract_tag_value vm.tags_jira_asset "System") "3006").isSome,
       true] := by
    simp only [create_jira_asset_payload, List.map_cons, List.map_nil,
      List.all_cons, List.all_nil, Option.isSome_some, Bool.and_true]
  refine ⟨rfl, ?_, ?_, hmap, ?_⟩
  · simp only [create_jira_asset_payload, List.map_cons, List.map_nil]
  · simp only [create_jira_asset_payload, List.all_cons, List.all_nil,
      List.length_cons, List.length_nil, Nat.reduceAdd, Nat.reduceBEq,
      beq_self_eq_true, Bool.and_true, Bool.true_and]
  · rintro ⟨h6, h33, h36⟩
    rw [hmap, itam_resolve_isSome_of_unknown lookup _ _ h33,
      itam_resolve_isSome_of_unknown lookup _ _ h36,
      itam_resolve_isSome_of_unknown lookup _ _ h6]

/-- Witness for C2: with a lookup that always resolves, every attribute
value is a string. -/
theorem payload_wire_shape_witness :
    (create_jira_asset_payload (fun _ _ => some "K1") "3191" "242"
      vmC2).objectTypeId = "3191" ∧
    (create_jira_asset_payload (fun _ _ => some "K1") "3191" "242"
      vmC2).attributes.map (fun a => a.values.all (fun v => v.isSome)) =
      [true, true, true, true, true, true, true, true, true, true, true,
       true, true, true, true, true] :=
  ⟨(payload_wire_shape (fun _ _ => some "K1") "3191" "242" vmC2).1,
   (payload_wire_shape (fun _ _ => some "K1") "3191" "242" vmC2).2.2.2.2
     ⟨by decide, by decide, by decide⟩⟩

/-- C2 counterexample: with a present System tag and a lookup that fails
for both the source value and "Unknown", the System attribute (position
14, id 14817) carries a null value — not a string. -/
theorem payload_value_not_string_on_lookup_failure :
    ((create_jira_asset_payload (fun _ _ => none) "3191" "242"
      vmC2).attributes[14]?) = some ⟨14817, [none]⟩ ∧
    (((create_jira_asset_payload (fun _ _ => none) "3191" "242"
      vmC2).attributes.map (fun a => a.values.all (fun v => v.isSome)))[14]?) =
      some false := by
  refine ⟨by decide, by decide⟩

/-- C3 (amended).  ITAM fallback chain: each of the System (14817, at
position 14), Component (14780, at position 7) and OperatingSystem
(14820, at position 13) attribute values equals the itam_resolve chain of
its source classification value; when the source value is absent the
chain is lookup("Unknown") else the literal string "Unknown" and is never
blank; when the source value is present the value is lookup(source) else
lookup("Unknown"), which is non-blank whenever the "Unknown" lookup
succeeds but is null when both lookups fail. -/
theorem itam_fallback_chain (lookup : String → String → Option String)
    (otId osId : String) (vm : VcVM) :
    ((create_jira_asset_payload lookup otId osId vm).attributes[14]?) =
      some ⟨14817, [itam_resolve lookup
        (extract_tag_value vm.tags_jira_asset "System") "3006"]⟩ ∧
    ((create_jira_asset_payload lookup otId osId vm).attributes[7]?) =
      some ⟨14780, [itam_resolve lookup
        (extract_tag_value vm.tags_jira_asset "Component") "3233"]⟩ ∧
    ((create_jira_asset_payload lookup otId osId vm).attributes[13]?) =
      some ⟨14820, [itam_resolve lookup (os_source vm) "3236"]⟩ ∧
    (∀ src t, optTruthy src = false →
      itam_resolve lookup src t = some (pyOrD (lookup "Unknown" t) "Unknown")) ∧
    (∀ src t, optTruthy src = false → itam_resolve lookup src t ≠ none) ∧
    (∀ src t, optTruthy (lookup "Unknown" t) = true →
      itam_resolve lookup src t ≠ none) := by
  refine ⟨rfl, rfl, rfl, ?_, ?_, ?_⟩
  · intro src t h
    unfold itam_resolve
    rw [if_neg (by rw [h]; exact Bool.false_ne_true)]
  · intro src t h
    unfold itam_resolve
    rw [if_neg (by rw [h]; exact Bool.false_ne_true)]
    exact Option.some_ne_none _
  · intro src t h
    have h2 := itam_resolve_isSome_of_unknown lookup src t h
    intro h0
    rw [h0] at h2
    exact Bool.noConfusion h2

/-- Witness for C3 at a concrete lookup and source values. -/
theorem itam_fallback_chain_witness :
    itam_resolve (fun _ _ => none) none "3006" ≠ none ∧
    itam_resolve (fun _ _ => some "U9") (some "X") "3233" ≠ none :=
  ⟨(itam_fallback_chain (fun _ _ => none) "3191" "242" vmC2).2.2.2.2.1
      none "3006" (by decide),
   (itam_fallback_chain (fun _ _ => some "U9") "3191" "242" vmC2).2.2.2.2.2
      (some "X") "3233" (by decide)⟩

/-- C3 counterexample: with a present Component tag value whose lookup
fails and a failing "Unknown" lookup, the Component attribute value
(position 7, id 14780) is null — the literal-"Unknown" fallback of the
claim is not applied when the source value was present. -/
theorem itam_value_absent_on_double_failure :
    extract_tag_value vmC3.tags_jira_asset "Component" = some "DB" ∧
    ((create_jira_asset_payload (fun _ _ => none) "3191" "242"
      vmC3).attributes[7]?) = some ⟨14780, [none]⟩ := by
  refine ⟨by decide, by decide⟩

theorem splitOnChar_ne_nil (c : Char) (l : List Char) : splitOnChar c l ≠ [] := by
  induction l with
  | nil => simp [splitOnChar]
  | cons x xs ih =>
    unfold splitOnChar
    cases h : splitOnChar c xs with
    | nil => simp
    | cons p ps => by_cases hx : x = c <;> simp [hx]

theorem splitOnChar_cons_eq (c x : Char) (xs p : List Char) (ps : List (List Char))
    (h : splitOnChar c xs = p :: ps) :
    splitOnChar c (x :: xs) = if x = c then [] :: p :: ps else (x :: p) :: ps := by
  unfold splitOnChar
  rw [h]

theorem splitOnChar_join (c : Char) (l : List Char) :
    interChar c (splitOnChar c l) = l := by
  induction l with
  | nil => rfl
  | cons x xs ih =>
    cases h : splitOnChar c xs with
    | nil => exact absurd h (splitOnChar_ne_nil c xs)
    | cons p ps =>
      rw [splitOnChar_cons_eq c x xs p ps h]
      rw [h] at ih
      by_cases hx : x = c
      · rw [if_pos hx]
        show c :: interChar c (p :: ps) = x :: xs
        rw [ih, hx]
      · rw [if_neg hx]
        cases ps with
        | nil =>
          show x :: p = x :: xs
          rw [show interChar c [p] = p from rfl] at ih
          rw [ih]
        | cons q rest =>
          show (x :: p) ++ c :: interChar c (q :: rest) = x :: xs
          rw [show interChar c (p :: q :: rest) =
            p ++ c :: interChar c (q :: rest) from rfl] at ih
          simp only [List.cons_append]
          rw [ih]

theorem splitOnChar_not_mem (c : Char) (l : List Char) :
    ∀ p ∈ splitOnChar c l, c ∉ p := by
  induction l with
  | nil =>
    intro p hp
    simp [splitOnChar] at hp
    subst hp
    simp
  | cons x xs ih =>
    intro p hp
    cases h : splitOnChar c xs with
    | nil => exact absurd h (splitOnChar_ne_nil c xs)
    | cons q qs =>
      rw [splitOnChar_cons_eq c x xs q qs h] at hp
      by_cases hx : x = c
      · rw [if_pos hx] at hp
        rcases List.mem_cons.mp hp with h1 | h1
        · subst h1
          simp
        · exact ih p (h ▸ h1)
      · rw [if_neg hx] at hp
        rcases List.mem_cons.mp hp with h1 | h1
        · subst h1
          intro hmem
          rcases List.mem_cons.mp hmem with h2 | h2
          · exact hx h2.symm
          · exact ih q (h ▸ List.mem_cons_self q qs) h2
        · exact ih p (h ▸ List.mem_cons_of_mem q h1)

theorem validOctet_facts (p : List Char) (h : validOctet p = true) :
    p ≠ [] ∧ (∀ ch ∈ p, ch.isDigit = true) ∧
    (p.head? = some '0' → p = ['0']) ∧ digitsVal p ≤ 255 := by
  unfold validOctet at h
  simp only [Bool.and_eq_true, Bool.or_eq_true, List.all_eq_true,
    decide_eq_true_eq, beq_iff_eq, bne_iff_ne, ne_eq,
    Bool.not_eq_true', List.isEmpty_eq_false] at h
  obtain ⟨⟨⟨hne, hdig⟩, hlen⟩, hle⟩ := h
  refine ⟨hne, fun ch hc => hdig ch hc, ?_, hle⟩
  intro h0
  rcases hlen with h1 | h1
  · cases p with
    | nil => exact absurd rfl hne
    | cons a q =>
      cases q with
      | nil =>
        have : a = '0' := by simpa using h0
        rw [this]
      | cons b r => simp at h1
  · exact absurd h0 h1

theorem digitsVal_foldl_ge (e : List Char) :
    ∀ a : Nat, a * 10 ^ e.length ≤
      e.foldl (fun acc c => acc * 10 + (c.toNat - 48)) a := by
  induction e with
  | nil => intro a; simp
  | cons c cs ih =>
    intro a
    simp only [List.foldl_cons, List.length_cons]
    calc a * 10 ^ (cs.length + 1) = (a * 10) * 10 ^ cs.length := by ring
    _ ≤ (a * 10 + (c.toNat - 48)) * 10 ^ cs.length := by
        exact Nat.mul_le_mul_right _ (Nat.le_add_right _ _)
    _ ≤ cs.foldl (fun acc c => acc * 10 + (c.toNat - 48)) (a * 10 + (c.toNat - 48)) := ih _

theorem parseIPv4_structure (l : List Char) (h : parseIPv4 l = true) :
    ∃ a b c d, splitOnChar '.' l = [a, b, c, d] ∧
      validOctet a = true ∧ validOctet b = true ∧ validOctet c = true ∧
      validOctet d = true ∧ l = a ++ '.' :: (b ++ '.' :: (c ++ '.' :: d)) := by
  unfold parseIPv4 at h
  have hjoin := splitOnChar_join '.' l
  cases hsp : splitOnChar '.' l with
  | nil => rw [hsp] at h; exact absurd h (by simp)
  | cons a r1 =>
    cases r1 with
    | nil => rw [hsp] at h; exact absurd h (by simp)
    | cons b r2 =>
      cases r2 with
      | nil => rw [hsp] at h; exact absurd h (by simp)
      | cons c r3 =>
        cases r3 with
        | nil => rw [hsp] at h; exact absurd h (by simp)
        | cons d r4 =>
          cases r4 with
          | cons e r5 => rw [hsp] at h; exact absurd h (by simp)
          | nil =>
            rw [hsp] at h hjoin
            simp only [Bool.and_eq_true] at h
            refine ⟨a, b, c, d, rfl, h.1.1.1, h.1.1.2, h.1.2, h.2, ?_⟩
            rw [← hjoin]
            rfl

theorem octet_zero_mid (p : List Char) (h : validOctet p = true) (x t : List Char)
    (heq : p ++ '.' :: x = '0' :: '.' :: t) : p = ['0'] ∧ x = t := by
  obtain ⟨hne, _, hzero, _⟩ := validOctet_facts p h
  cases p with
  | nil => exact absurd rfl hne
  | cons c0 p0 =>
    simp only [List.cons_append, List.cons.injEq] at heq
    obtain ⟨hc0, heq2⟩ := heq
    have hp : c0 :: p0 = ['0'] := hzero (by rw [hc0]; rfl)
    have hp0 : p0 = [] := by
      injection hp with h1 h2
    subst hp0
    simp only [List.nil_append, List.cons.injEq] at heq2
    exact ⟨hp, heq2.2⟩

theorem octet_zero_last (d : List Char) (h : validOctet d = true) (t : List Char)
    (heq : d = '0' :: t) : t = [] := by
  have hd0 : d = ['0'] := (validOctet_facts d h).2.2.1 (by rw [heq]; rfl)
  rw [heq] at hd0
  injection hd0 with h1 h2

theorem octet_255_mid (p : List Char) (h : validOctet p = true) (x t : List Char)
    (heq : p ++ '.' :: x = '2' :: '5' :: '5' :: '.' :: t) :
    p = ['2', '5', '5'] ∧ x = t := by
  obtain ⟨hne, hdig, _, _⟩ := validOctet_facts p h
  cases p with
  | nil => exact absurd rfl hne
  | cons c0 p0 =>
    simp only [List.cons_append, List.cons.injEq] at heq
    obtain ⟨hc0, heq⟩ := heq
    cases p0 with
    | nil =>
      simp only [List.nil_append, List.cons.injEq] at heq
      exact absurd heq.1 (by decide)
    | cons c1 p1 =>
      simp only [List.cons_append, List.cons.injEq] at heq
      obtain ⟨hc1, heq⟩ := heq
      cases p1 with
      | nil =>
        simp only [List.nil_append, List.cons.injEq] at heq
        exact absurd heq.1 (by decide)
      | cons c2 p2 =>
        simp only [List.cons_append, List.cons.injEq] at heq
        obtain ⟨hc2, heq⟩ := heq
        cases p2 with
        | nil =>
          simp only [List.nil_append, List.cons.injEq] at heq
          subst hc0
          subst hc1
          subst hc2
          exact ⟨rfl, heq.2⟩
        | cons c3 p3 =>
          simp only [List.cons_append, List.cons.injEq] at heq
          have h3 : c3 = '.' := heq.1
          have hd3 := hdig c3 (by simp)
          rw [h3] at hd3
          exact absurd hd3 (by decide)

theorem octet_255_last (d : List Char) (h : validOctet d = true) (t : List Char)
    (heq : d = '2' :: '5' :: '5' :: t) : t = [] := by
  obtain ⟨_, _, _, hle⟩ := validOctet_facts d h
  by_contra hne
  have hlen : 1 ≤ t.length := by
    cases t with
    | nil => exact absurd rfl hne
    | cons a q => simp
  have h1 : digitsVal d = t.foldl (fun a c => a * 10 + (c.toNat - 48)) 255 := by
    rw [heq]
    rfl
  have h2 := digitsVal_foldl_ge t 255
  have h3 : 2550 ≤ 255 * 10 ^ t.length := by
    calc 2550 = 255 * 10 ^ 1 := by norm_num
    _ ≤ 255 * 10 ^ t.length := Nat.mul_le_mul_left _ (Nat.pow_le_pow_right (by norm_num) hlen)
  omega

theorem parseIPv4_zero_eq (l : List Char) (h : parseIPv4 l = true)
    (hpre : l.take 7 = "0.0.0.0".data) : l = "0.0.0.0".data := by
  obtain ⟨a, b, c, d, _, ha, hb, hc, hd, hl⟩ := parseIPv4_structure l h
  have hl7 : a ++ '.' :: (b ++ '.' :: (c ++ '.' :: d)) =
      '0' :: '.' :: '0' :: '.' :: '0' :: '.' :: '0' :: l.drop 7 := by
    conv_lhs => rw [← hl, ← List.take_append_drop 7 l, hpre]
    rfl
  obtain ⟨ha0, h2⟩ := octet_zero_mid a ha _ _ hl7
  obtain ⟨hb0, h3⟩ := octet_zero_mid b hb _ _ h2
  obtain ⟨hc0, h4⟩ := octet_zero_mid c hc _ _ h3
  have hdrop : l.drop 7 = [] := octet_zero_last d hd _ h4
  rw [hdrop] at h4
  rw [hl, ha0, hb0, hc0, h4]
  rfl

theorem parseIPv4_bcast_eq (l : List Char) (h : parseIPv4 l = true)
    (hpre : l.take 15 = "255.255.255.255".data) : l = "255.255.255.255".data := by
  obtain ⟨a, b, c, d, _, ha, hb, hc, hd, hl⟩ := parseIPv4_structure l h
  have hl15 : a ++ '.' :: (b ++ '.' :: (c ++ '.' :: d)) =
      '2' :: '5' :: '5' :: '.' :: '2' :: '5' :: '5' :: '.' ::
      '2' :: '5' :: '5' :: '.' :: '2' :: '5' :: '5' :: l.drop 15 := by
    conv_lhs => rw [← hl, ← List.take_append_drop 15 l, hpre]
    rfl
  obtain ⟨ha0, h2⟩ := octet_255_mid a ha _ _ hl15
  obtain ⟨hb0, h3⟩ := octet_255_mid b hb _ _ h2
  obtain ⟨hc0, h4⟩ := octet_255_mid c hc _ _ h3
  have hdrop : l.drop 15 = [] := octet_255_last d hd _ h4
  rw [hdrop] at h4
  rw [hl, ha0, hb0, hc0, h4]
  rfl

theorem validHextet_hex (p : List Char) (h : validHextet p = true) :
    ∀ ch ∈ p, isHexDigitC ch = true := by
  unfold validHextet at h
  simp only [Bool.and_eq_true, List.all_eq_true] at h
  exact h.2

theorem sideCnt_head (p : List Char) (X : List (List Char)) (n : Nat)
    (h : sideCnt (p :: X) = some n) : p = [] ∨ validHextet p = true := by
  have h2 : (if p.isEmpty = true then (if X.isEmpty = true then some 0 else none)
      else if (p :: X).all validHextet = true then some (X.length + 1)
      else none) = some n := h
  by_cases hp : p.isEmpty = true
  · exact Or.inl (List.isEmpty_iff.mp hp)
  · right
    rw [if_neg hp] at h2
    by_cases hall : (p :: X).all validHextet = true
    · exact (List.all_eq_true.mp hall) p (List.mem_cons_self p X)
    · rw [if_neg hall] at h2
      exact absurd h2 (by simp)

theorem parseIPv6_head (l : List Char) (h : parseIPv6 l = true) :
    ∃ p rest, splitOnChar ':' l = p :: rest ∧ rest ≠ [] ∧
      (∀ ch ∈ p, isHexDigitC ch = true) := by
  simp only [parseIPv6] at h
  cases hsp : splitOnChar ':' l with
  | nil => exact absurd hsp (splitOnChar_ne_nil ':' l)
  | cons p rest =>
    rw [hsp] at h
    refine ⟨p, rest, rfl, ?_, ?_⟩
    · intro hr
      subst hr
      rw [if_pos (by simp)] at h
      exact absurd h Bool.false_ne_true
    · by_cases hlen : (p :: rest).length < 3
      · rw [if_pos hlen] at h
        exact absurd h Bool.false_ne_true
      · rw [if_neg hlen] at h
        have hrest : rest ≠ [] := by
          intro hr
          subst hr
          simp at hlen
        cases hexp : expandV4 (p :: rest) with
        | none =>
          rw [hexp] at h
          exact absurd h Bool.false_ne_true
        | some ps =>
          rw [hexp] at h
          have hb : (if 9 < ps.length then false
              else match ((ps.drop 1).dropLast).countP (fun q => q.isEmpty) with
              | 0 => (ps.length == 8) && ps.all validHextet
              | 1 =>
                (match sideCnt (ps.take
                      (1 + ((ps.drop 1).dropLast).findIdx (fun q => q.isEmpty))),
                    sideCnt ((ps.drop ((1 + ((ps.drop 1).dropLast).findIdx
                      (fun q => q.isEmpty)) + 1)).reverse) with
                 | some hi, some lo => decide (hi + lo ≤ 7)
                 | _, _ => false)
              | _ => false) = true := h
          have hhead : ∃ tl, ps = p :: tl := by
            unfold expandV4 at hexp
            cases hlp : (p :: rest).getLast? with
            | none =>
              rw [hlp] at hexp
              exact absurd hexp (by simp)
            | some lp =>
              rw [hlp] at hexp
              have hexp1 : (if lp.contains '.' = true
                  then (if parseIPv4 lp = true
                        then some ((p :: rest).dropLast ++ [['0'], ['0']])
                        else none)
                  else some (p :: rest)) = some ps := hexp
              by_cases hdot : lp.contains '.' = true
              · rw [if_pos hdot] at hexp1
                by_cases h4 : parseIPv4 lp = true
                · rw [if_pos h4] at hexp1
                  have hexp2 : (p :: rest).dropLast ++ [['0'], ['0']] = ps :=
                    Option.some.inj hexp1
                  cases rest with
                  | nil => exact absurd rfl hrest
                  | cons r rs =>
                    refine ⟨(r :: rs).dropLast ++ [['0'], ['0']], ?_⟩
                    rw [← hexp2, List.dropLast_cons₂]
                    simp
                · rw [if_neg h4] at hexp1
                  exact absurd hexp1 (by simp)
              · rw [if_neg hdot] at hexp1
                exact ⟨rest, (Option.some.inj hexp1).symm⟩
          obtain ⟨tl, hps⟩ := hhead
          by_cases h9 : 9 < ps.length
          · rw [if_pos h9] at hb
            exact absurd hb Bool.false_ne_true
          · rw [if_neg h9] at hb
            cases hcnt : ((ps.drop 1).dropLast).countP (fun q => q.isEmpty) with
            | zero =>
              rw [hcnt] at hb
              have hb2 : ((ps.length == 8) && ps.all validHextet) = true := hb
              have hall : ps.all validHextet = true := by
                simp only [Bool.and_eq_true] at hb2
                exact hb2.2
              rw [hps] at hall
              exact validHextet_hex p ((List.all_eq_true.mp hall) p (List.mem_cons_self p tl))
            | succ n =>
              cases n with
              | zero =>
                rw [hcnt] at hb
                have hb2 : (match sideCnt (ps.take
                      (1 + ((ps.drop 1).dropLast).findIdx (fun q => q.isEmpty))),
                    sideCnt ((ps.drop ((1 + ((ps.drop 1).dropLast).findIdx
                      (fun q => q.isEmpty)) + 1)).reverse) with
                 | some hi, some lo => decide (hi + lo ≤ 7)
                 | _, _ => false) = true := hb
                revert hb2
                generalize hK : 1 + ((ps.drop 1).dropLast).findIdx (fun q => q.isEmpty) = K
                intro hb2
                obtain ⟨K1, rfl⟩ : ∃ K1, K = K1 + 1 := ⟨K - 1, by omega⟩
                cases hs1 : sideCnt (ps.take (K1 + 1)) with
                | none =>
                  rw [hs1] at hb2
                  exact absurd hb2 Bool.false_ne_true
                | some h1 =>
                  rw [hps, List.take_succ_cons] at hs1
                  rcases sideCnt_head p _ _ hs1 with hpe | hv
                  · intro ch hch
                    rw [hpe] at hch
                    simp at hch
                  · exact validHextet_hex p hv
              | succ m =>
                rw [hcnt] at hb
                exact absurd hb Bool.false_ne_true

theorem hex_after_colon (q : List Char) :
    ∀ p : List Char, (∀ ch ∈ p, isHexDigitC ch = true) →
      ∀ t : List Char, (∀ ch ∈ q, (ch.isDigit || (ch == '.')) = true) →
      '.' ∈ q → (p ++ ':' :: t).take q.length ≠ q := by
  induction q with
  | nil =>
    intro p hp t hq hdot
    simp at hdot
  | cons qc q0 ih =>
    intro p hp t hq hdot htake
    cases p with
    | nil =>
      simp only [List.nil_append, List.length_cons, List.take_succ_cons,
        List.cons.injEq] at htake
      have hqc := hq qc (List.mem_cons_self qc q0)
      rw [← htake.1] at hqc
      exact absurd hqc (by decide)
    | cons pc p0 =>
      simp only [List.cons_append, List.length_cons, List.take_succ_cons,
        List.cons.injEq] at htake
      rcases List.mem_cons.mp hdot with h1 | h1
      · have hpc := hp pc (List.mem_cons_self pc p0)
        rw [htake.1, ← h1] at hpc
        exact absurd hpc (by decide)
      · exact ih p0 (fun ch hch => hp ch (List.mem_cons_of_mem pc hch)) t
          (fun ch hch => hq ch (List.mem_cons_of_mem qc hch)) h1 htake.2

theorem parseIPv6_dotted_head_ne (l : List Char) (h : parseIPv6 l = true)
    (q : List Char) (hq : ∀ ch ∈ q, (ch.isDigit || (ch == '.')) = true)
    (hdot : '.' ∈ q) : l.take q.length ≠ q := by
  obtain ⟨p, rest, hsp, hrest, hhex⟩ := parseIPv6_head l h
  have hjoin := splitOnChar_join ':' l
  rw [hsp] at hjoin
  cases rest with
  | nil => exact absurd rfl hrest
  | cons r rs =>
    have hl : l = p ++ ':' :: interChar ':' (r :: rs) := by
      rw [← hjoin]
      rfl
    rw [hl]
    exact hex_after_colon q p hhex (interChar ':' (r :: rs)) hq hdot

theorem parseIP_zero_eq (l : List Char) (hp : parseIP l = true)
    (hpre : l.take 7 = "0.0.0.0".data) : l = "0.0.0.0".data := by
  simp only [parseIP, Bool.or_eq_true] at hp
  rcases hp with h4 | h6
  · exact parseIPv4_zero_eq l h4 hpre
  · exact absurd hpre (parseIPv6_dotted_head_ne l h6 "0.0.0.0".data
      (by decide) (by decide))

theorem parseIP_bcast_eq (l : List Char) (hp : parseIP l = true)
    (hpre : l.take 15 = "255.255.255.255".data) : l = "255.255.255.255".data := by
  simp only [parseIP, Bool.or_eq_true] at hp
  rcases hp with h4 | h6
  · exact parseIPv4_bcast_eq l h4 hpre
  · exact absurd hpre (parseIPv6_dotted_head_ne l h6 "255.255.255.255".data
      (by decide) (by decide))

theorem startsWith_eq_beq_of_forced (t q : String)
    (hforce : t.data.take q.data.length = q.data → t.data = q.data) :
    startsWithStr t q = (t == q) := by
  cases hA : startsWithStr t q with
  | false =>
    cases hB : (t == q) with
    | false => rfl
    | true =>
      have hsB : t = q := by simpa using hB
      subst hsB
      have hself : startsWithStr t t = true :=
        decide_eq_true (List.take_length t.data)
      rw [hself] at hA
      exact absurd hA (by decide)
  | true =>
    cases hB : (t == q) with
    | true => rfl
    | false =>
      have hpre : t.data.take q.data.length = q.data := of_decide_eq_true hA
      have heq : t.data = q.data := hforce hpre
      have hteq : t = q := by
        cases t with
        | mk d1 =>
          cases q with
          | mk d2 =>
            have hd : d1 = d2 := heq
            rw [hd]
      rw [hteq] at hB
      simp at hB

/-- C8: the reconciliation engine's IP validity predicate agrees with the
specification on every input string — the stripped string must parse as a
syntactically valid IP address, must not start with `127.`, must not be
`0.0.0.0` or `255.255.255.255`, and must not start with `169.254.`
(the code's `startswith` exclusion of the latter two coincides with exact
equality on parsed addresses) — and in particular `1.2.3.4`, `10.0.0.5` and
`2001:db8::1` are valid while `127.0.0.1`, `0.0.0.0`, `255.255.255.255`,
`169.254.1.1`, the empty string and `not-an-ip` are invalid. -/
theorem is_valid_ip_spec :
    (∀ s : String, is_valid_ip s = spec_valid_ip s) ∧
    is_valid_ip "1.2.3.4" = true ∧
    is_valid_ip "10.0.0.5" = true ∧
    is_valid_ip "2001:db8::1" = true ∧
    is_valid_ip "127.0.0.1" = false ∧
    is_valid_ip "0.0.0.0" = false ∧
    is_valid_ip "255.255.255.255" = false ∧
    is_valid_ip "169.254.1.1" = false ∧
    is_valid_ip "" = false ∧
    is_valid_ip "not-an-ip" = false := by
  refine ⟨?_, by decide, by decide, by decide, by decide, by decide,
    by decide, by decide, by decide, by decide⟩
  intro s
  by_cases h0 : s = ""
  · subst h0
    decide
  · by_cases h1 : pyStrip s = ""
    · have hL : is_valid_ip s = false := by
        unfold is_valid_ip
        rw [if_neg h0, if_pos h1]
      rw [hL]
      unfold spec_valid_ip
      rw [h1]
      decide
    · by_cases h2 : parseIP (pyStrip s).data = true
      · have hnp : ¬ (parseIP (pyStrip s).data = false) := by
          rw [h2]
          decide
        unfold is_valid_ip spec_valid_ip
        rw [if_neg h0, if_neg h1, if_neg hnp, h2]
        have e0 : startsWithStr (pyStrip s) "0.0.0.0" = (pyStrip s == "0.0.0.0") :=
          startsWith_eq_beq_of_forced (pyStrip s) "0.0.0.0"
            (fun hpre => parseIP_zero_eq _ h2 hpre)
        have e255 : startsWithStr (pyStrip s) "255.255.255.255" =
            (pyStrip s == "255.255.255.255") :=
          startsWith_eq_beq_of_forced (pyStrip s) "255.255.255.255"
            (fun hpre => parseIP_bcast_eq _ h2 hpre)
        rw [e0, e255]
        generalize startsWithStr (pyStrip s) "127." = A
        generalize (pyStrip s == "0.0.0.0") = B
        generalize (pyStrip s == "255.255.255.255") = C
        generalize startsWithStr (pyStrip s) "169.254." = D
        cases A <;> cases B <;> cases C <;> cases D <;> rfl
      · have h2f : parseIP (pyStrip s).data = false := by
          cases hx : parseIP (pyStrip s).data
          · rfl
          · exact absurd hx h2
        unfold is_valid_ip spec_valid_ip
        rw [if_neg h0, if_neg h1, if_pos h2f, h2f]
        simp
